import Mathlib

set_option linter.unusedVariables false

/-!
Shallow embedding of the QUIC sent-packet manager
(`src/src/net/quic_sent_packet_manager.cc`).

Times are modelled in microseconds as `Nat` (QuicTime / QuicTime::Delta store
microsecond counts; `ToMilliseconds` truncates, which for non-negative values
is `Nat` division by 1000).  The unacked-packet table (`QuicUnackedPacketMap`,
whose implementation is not part of this repository) is modelled from the
spec, section 4.1, as an association list from sequence number to
transmission record, kept in ascending key order like the underlying
`std::map`; the shared `all_transmissions` group set of a record is mirrored
by a per-record list, with removal of a packet erasing its SN from every
record's list (the C++ groups are shared sets, so erasure is visible to all
members).  The congestion controller and the ack-notifier registry are
external collaborators: their queries (`SmoothedRtt`, `RetransmissionDelay`,
the accept/refuse answer of `OnPacketSent`) enter as parameters, and their
notification callbacks have no effect on the manager state.
-/

/-- Payload handle of a retransmittable packet; carries the crypto-handshake
flag used by `HasCryptoHandshake`. -/
structure RetransmittableFrames where
  has_crypto_handshake : Bool
deriving DecidableEq

/-- One transmission record of the unacked-packet table
(`QuicUnackedPacketMap::TransmissionInfo`). `all_transmissions` mirrors the
shared group set; `retransmittable_frames = none` models a NULL pointer. -/
structure TransmissionInfo where
  retransmittable_frames : Option RetransmittableFrames
  sent_time : Nat
  bytes_sent : Nat
  nack_count : Nat
  pending : Bool
  all_transmissions : List Nat
deriving DecidableEq

/-- Reason recorded in the pending-retransmission queue. -/
inductive TransmissionType where
  | NOT_RETRANSMISSION
  | NACK_RETRANSMISSION
  | RTO_RETRANSMISSION
  | TLP_RETRANSMISSION
deriving DecidableEq

/-- The three timeout regimes of `GetRetransmissionMode`. -/
inductive RetransmissionTimeoutMode where
  | HANDSHAKE_MODE
  | TLP_MODE
  | RTO_MODE
deriving DecidableEq

/-- The send algorithm as seen through the decorator structure: either a base
congestion controller or a `PacingSender` wrapping an inner algorithm with a
pacing granularity in microseconds. -/
inductive SendAlg where
  | base (id : Nat)
  | paced (inner : SendAlg) (granularity_us : Nat)
deriving DecidableEq

/-- Incoming ACK frame contents used by the manager
(`ReceivedPacketInfo`). `delta_time_largest_observed` is the peer-reported
ack delay in microseconds (an `Int` so that arbitrary reported deltas,
including the infinite sentinel, compare correctly against `send_delta`). -/
structure ReceivedPacketInfo where
  largest_observed : Nat
  delta_time_largest_observed : Int
  missing_packets : List Nat
  revived_packets : List Nat
  is_truncated : Bool
deriving DecidableEq

/-- The negotiated configuration fields consulted by `SetFromConfig`. -/
structure QuicConfig where
  initial_round_trip_time_us : Nat
  congestion_control : Nat
deriving DecidableEq

/-- The `kPACE` congestion-control tag. -/
def kPACE : Nat := 0x45434150

/-- Default value of the FLAGS_enable_quic_pacing global. -/
def FLAGS_enable_quic_pacing_default : Bool := false

def kDefaultRetransmissionTimeMs : Nat := 500
def kMinRetransmissionTimeMs : Nat := 200
def kMaxRetransmissionTimeMs : Nat := 60000
def kMaxRetransmissions : Nat := 10
def kNumberOfNacksBeforeRetransmission : Nat := 3
def kMaxHandshakeRetransmissionBackoffs : Nat := 5
def kMinHandshakeTimeoutMs : Nat := 10
def kDefaultMaxTailLossProbes : Nat := 2
def kMinTailLossProbeTimeoutMs : Nat := 10

/-- Whole state of a `QuicSentPacketManager` relevant to the verified
claims.  Statistics counters are flattened into the record. -/
structure SentPacketManager where
  unacked_packets : List (Nat × TransmissionInfo)
  largest_sent_packet : Nat
  pending_retransmissions : List (Nat × TransmissionType)
  rtt_sample : Option Int
  pending_crypto_packet_count : Nat
  consecutive_rto_count : Nat
  consecutive_tlp_count : Nat
  consecutive_crypto_retransmission_count : Nat
  max_tail_loss_probes : Nat
  using_pacing : Bool
  send_algorithm : SendAlg
  stats_packets_lost : Nat
  stats_packets_spuriously_retransmitted : Nat
deriving DecidableEq

/-- Lookup of a key in an association list (the `std::map` find). -/
def lookupU (l : List (Nat × TransmissionInfo)) (sn : Nat) :
    Option TransmissionInfo :=
  (l.find? (fun p => p.1 == sn)).map (·.2)

/-- Map `std::map` erase: drop the entry with the given key. -/
def eraseU (l : List (Nat × TransmissionInfo)) (sn : Nat) :
    List (Nat × TransmissionInfo) :=
  l.filter (fun p => p.1 ≠ sn)

/-- Update the record stored under a key in place, keeping the key. -/
def adjustU (l : List (Nat × TransmissionInfo)) (sn : Nat)
    (f : TransmissionInfo → TransmissionInfo) : List (Nat × TransmissionInfo) :=
  l.map (fun p => if p.1 = sn then (p.1, f p.2) else p)

/-- Lookup in the pending-retransmission queue. -/
def qlookup (l : List (Nat × TransmissionType)) (sn : Nat) :
    Option TransmissionType :=
  (l.find? (fun p => p.1 == sn)).map (·.2)

/-- Erase a sequence number from the pending-retransmission queue. -/
def qerase (l : List (Nat × TransmissionType)) (sn : Nat) :
    List (Nat × TransmissionType) :=
  l.filter (fun p => p.1 ≠ sn)

/-- Ordered insert with replacement, mirroring `std::map::operator[]=`. -/
def qinsert (l : List (Nat × TransmissionType)) (sn : Nat)
    (ty : TransmissionType) : List (Nat × TransmissionType) :=
  match l with
  | [] => [(sn, ty)]
  | p :: rest =>
    if sn < p.1 then (sn, ty) :: p :: rest
    else if sn = p.1 then (sn, ty) :: rest
    else p :: qinsert rest sn ty

/-- `QuicUnackedPacketMap::IsUnacked`: the SN is present in the table. -/
def IsUnackedS (s : SentPacketManager) (sn : Nat) : Bool :=
  (lookupU s.unacked_packets sn).isSome

/-- `QuicUnackedPacketMap::IsPending`. -/
def IsPendingS (s : SentPacketManager) (sn : Nat) : Bool :=
  match lookupU s.unacked_packets sn with
  | some ti => ti.pending
  | none => false

/-- Modelled from the spec: `has_pending_packets` — some record is in
flight. -/
def HasPendingPackets (s : SentPacketManager) : Bool :=
  s.unacked_packets.any (fun p => p.2.pending)

/-- Modelled from the spec: `has_multiple_pending_packets`. -/
def HasMultiplePendingPackets (s : SentPacketManager) : Bool :=
  decide (2 ≤ (s.unacked_packets.filter (fun p => p.2.pending)).length)

/-- Modelled from the spec: `has_unacked_retransmittable_frames` — there
exist unacked retransmittable frames. -/
def HasUnackedRetransmittableFrames (s : SentPacketManager) : Bool :=
  s.unacked_packets.any (fun p => p.2.retransmittable_frames.isSome)

/-- `QuicSentPacketManager::HasRetransmittableFrames` for one SN. -/
def HasRetransmittableFramesS (s : SentPacketManager) (sn : Nat) : Bool :=
  match lookupU s.unacked_packets sn with
  | some ti => ti.retransmittable_frames.isSome
  | none => false

/-- Modelled from the spec: `set_pending(sn, sent_time, bytes)` of the
unacked-packet table; also advances `largest_sent`. -/
def setPendingState (s : SentPacketManager) (sn : Nat) (sent_time bytes : Nat) :
    SentPacketManager :=
  { s with
    unacked_packets := adjustU s.unacked_packets sn
      (fun ti => { ti with pending := true, sent_time := sent_time,
                           bytes_sent := bytes })
    largest_sent_packet := max s.largest_sent_packet sn }

/-- Modelled from the spec: `set_not_pending(sn)`. -/
def setNotPendingState (s : SentPacketManager) (sn : Nat) : SentPacketManager :=
  { s with
    unacked_packets := adjustU s.unacked_packets sn
      (fun ti => { ti with pending := false }) }

/-- Modelled from the spec: `neuter(sn)` — clear `retransmittable_frames`
but keep the record. -/
def neuterState (s : SentPacketManager) (sn : Nat) : SentPacketManager :=
  { s with
    unacked_packets := adjustU s.unacked_packets sn
      (fun ti => { ti with retransmittable_frames := none }) }

/-- Erase a removed SN from a record's (shared) group list. -/
def detachTI (sn : Nat) (ti : TransmissionInfo) : TransmissionInfo :=
  { ti with all_transmissions := ti.all_transmissions.filter (· ≠ sn) }

/-- Modelled from the spec: `remove(sn)` — delete the record entirely.  The
SN is also erased from every remaining record's group list, mirroring the
erase on the C++ shared `all_transmissions` set. -/
def removeState (s : SentPacketManager) (sn : Nat) : SentPacketManager :=
  { s with
    unacked_packets := (eraseU s.unacked_packets sn).map
      (fun p => (p.1, detachTI sn p.2)) }

/-- Modelled from the spec: `nack(sn, min_nacks)` — raise `nack_count` to at
least `min_nacks`. -/
def nackInfo (ti : TransmissionInfo) (min_nacks : Nat) : TransmissionInfo :=
  { ti with nack_count := max ti.nack_count min_nacks }

/-- `IsAwaitingPacket(received_info, sn)`: the peer is still awaiting the
packet — it is beyond `largest_observed` or explicitly reported missing. -/
def IsAwaitingPacket (info : ReceivedPacketInfo) (sn : Nat) : Bool :=
  decide (info.largest_observed < sn) || info.missing_packets.contains sn

/-- `HasCryptoHandshake(transmission_info)` (anonymous namespace helper):
frames are present and flagged as handshake. -/
def HasCryptoHandshakeTI (ti : TransmissionInfo) : Bool :=
  match ti.retransmittable_frames with
  | none => false
  | some f => f.has_crypto_handshake

/-- `HasCryptoHandshake` applied to the record currently stored under a
sequence number (false if the SN is absent). -/
def hasCryptoHandshakeAt (s : SentPacketManager) (sn : Nat) : Bool :=
  match lookupU s.unacked_packets sn with
  | some ti => HasCryptoHandshakeTI ti
  | none => false

/-- `QuicSentPacketManager::MarkForRetransmission`: enqueue an SN with its
reason unless it is already queued, in which case nothing changes. -/
def MarkForRetransmission (s : SentPacketManager) (sn : Nat)
    (ty : TransmissionType) : SentPacketManager :=
  if (qlookup s.pending_retransmissions sn).isSome then s
  else { s with pending_retransmissions := qinsert s.pending_retransmissions sn ty }

/-- `QuicSentPacketManager::OnPacketAbandoned`: if the SN is pending, notify
the congestion controller (external, no state effect here) and clear
pending. -/
def OnPacketAbandonedState (s : SentPacketManager) (sn : Nat) :
    SentPacketManager :=
  if IsPendingS s sn then setNotPendingState s sn else s

/-- One iteration of the `MarkPacketHandled` group loop over member `prev`:
erase it from the pending-retransmission queue; for crypto-handshake groups
abandon the packet and clear its pending flag; finally remove the record
when (now) non-pending, else neuter it.  The `pending` flag is re-read from
the current table, mirroring the C++ reference into the map (which sees the
`SetNotPending` just performed for crypto packets). -/
def mphStep (has_crypto : Bool) (st : SentPacketManager) (prev : Nat) :
    SentPacketManager :=
  let st1 := { st with pending_retransmissions := qerase st.pending_retransmissions prev }
  let st2 := if has_crypto then
      setNotPendingState (OnPacketAbandonedState st1 prev) prev
    else st1
  if IsPendingS st2 prev then neuterState st2 prev
  else removeState st2 prev

/-- `QuicSentPacketManager::MarkPacketHandled`: ack/abandon one SN and
propagate to its whole transmission group.  `received_by_peer` selects which
congestion-controller callback fires (external, no state effect).  The group
list is copied before the loop, exactly as the C++ copies the shared set by
value; the loop walks it from newest to oldest (the set's reverse
iterator). -/
def MarkPacketHandled (s : SentPacketManager) (sn : Nat)
    (received_by_peer : Bool) : SentPacketManager :=
  match lookupU s.unacked_packets sn with
  | none => s
  | some ti =>
    let s1 := if ti.pending then setNotPendingState s sn else s
    let all_transmissions := ti.all_transmissions
    let newest := all_transmissions.getLastD 0
    let s2 := if newest ≠ sn then
        { s1 with stats_packets_spuriously_retransmitted := s1.stats_packets_spuriously_retransmitted + 1 }
      else s1
    let has_crypto := hasCryptoHandshakeAt s2 newest
    let s3 := if has_crypto then
        { s2 with pending_crypto_packet_count := s2.pending_crypto_packet_count - 1 }
      else s2
    all_transmissions.reverse.foldl (mphStep has_crypto) s3

/-- `QuicSentPacketManager::MaybeUpdateRTT`: update `rtt_sample` from the
highest acked SN, skipping the update if that SN is gone or was never sent. -/
def MaybeUpdateRTT (s : SentPacketManager) (info : ReceivedPacketInfo)
    (ack_receive_time : Nat) : SentPacketManager :=
  match lookupU s.unacked_packets info.largest_observed with
  | none => s
  | some ti =>
    if ti.sent_time = 0 then s
    else
      let send_delta : Int := (ack_receive_time : Int) - (ti.sent_time : Int)
      if send_delta > info.delta_time_largest_observed then
        { s with rtt_sample := some (send_delta - info.delta_time_largest_observed) }
      else if s.rtt_sample.isNone then
        { s with rtt_sample := some send_delta }
      else s

/-- `QuicSentPacketManager::DetectLostPackets` (static): pure scan of the
table up to `largest_observed`; `time` is accepted but unused, as in the
source.  `largest_sent` is the table's `largest_sent_packet()`. -/
def DetectLostPackets (packets : List (Nat × TransmissionInfo)) (time : Nat)
    (largest_sent : Nat) (largest_observed : Nat) : List Nat :=
  (packets.takeWhile (fun p => p.1 ≤ largest_observed)).filterMap (fun p =>
    if !p.2.pending then none
    else
      let num_nacks_needed : Nat :=
        if p.2.retransmittable_frames.isSome && (largest_sent == largest_observed)
        then largest_observed - p.1
        else kNumberOfNacksBeforeRetransmission
      if p.2.nack_count < num_nacks_needed then none else some p.1)

/-- `QuicSentPacketManager::MaybeRetransmitOnAckFrame`: raise nack counts on
every still-pending SN up to `largest_observed` (the early break of the C++
loop coincides with the key bound on the sorted map), then run the loss
detector and process each lost packet. -/
def MaybeRetransmitOnAckFrame (s : SentPacketManager)
    (info : ReceivedPacketInfo) (ack_receive_time : Nat) : SentPacketManager :=
  let s := { s with unacked_packets := s.unacked_packets.map (fun p =>
      if p.1 ≤ info.largest_observed ∧ p.2.pending then
        (p.1, nackInfo p.2 (info.largest_observed - p.1))
      else p) }
  let lost := DetectLostPackets s.unacked_packets ack_receive_time
      s.largest_sent_packet info.largest_observed
  lost.foldl (fun st sn =>
    let st1 := { st with stats_packets_lost := st.stats_packets_lost + 1 }
    let st2 := OnPacketAbandonedState st1 sn
    if HasRetransmittableFramesS st2 sn then
      MarkForRetransmission st2 sn TransmissionType.NACK_RETRANSMISSION
    else removeState st2 sn) s

/-- First table entry with key at least `c` (the `std::map` iterator resumed
at `c`; on the sorted table this is the minimal key ≥ `c`). -/
def firstKeyGE (l : List (Nat × TransmissionInfo)) (c : Nat) : Option Nat :=
  (l.find? (fun p => c ≤ p.1)).map (·.1)

/-- The iterator loop of `QuicSentPacketManager::HandleAckForSentPackets`:
walk the table from `cursor` upward; break beyond `largest_observed`; skip
packets the peer still awaits; mark the rest handled, resuming at the first
surviving key ≥ the handled SN.  `fuel` bounds the iteration (one unit is
spent per loop step; the caller passes table size + 1, which suffices since
every step either consumes a key or removes one). -/
def handleAckLoop (fuel : Nat) (info : ReceivedPacketInfo) (cursor : Nat)
    (s : SentPacketManager) : SentPacketManager :=
  match fuel with
  | 0 => s
  | fuel + 1 =>
    match firstKeyGE s.unacked_packets cursor with
    | none => s
    | some sn =>
      if info.largest_observed < sn then s
      else if IsAwaitingPacket info sn then
        handleAckLoop fuel info (sn + 1) s
      else
        handleAckLoop fuel info sn (MarkPacketHandled s sn true)

/-- Modelled from the spec: `clear_previous_retransmissions(k)` of the
unacked-packet table — drop the `k` oldest records that are non-pending and
not the newest of their group. -/
def clearLoop (keys : List Nat) (k : Nat) (s : SentPacketManager) :
    SentPacketManager :=
  match keys with
  | [] => s
  | sn :: rest =>
    if k = 0 then s
    else
      match lookupU s.unacked_packets sn with
      | none => clearLoop rest k s
      | some ti =>
        if ti.pending = false ∧ sn ≠ ti.all_transmissions.getLastD 0 then
          clearLoop rest (k - 1) (removeState s sn)
        else clearLoop rest k s

/-- `QuicSentPacketManager::HandleAckForSentPackets`: the ack sweep, then the
revived-packet cleanup, then the truncated-ack compaction. -/
def HandleAckForSentPackets (s : SentPacketManager)
    (info : ReceivedPacketInfo) : SentPacketManager :=
  let s := handleAckLoop (s.unacked_packets.length + 1) info 0 s
  let s := info.revived_packets.foldl (fun st r =>
    if IsUnackedS st r then
      if IsPendingS st r then neuterState st r else removeState st r
    else st) s
  if info.is_truncated then
    clearLoop (s.unacked_packets.map (·.1)) (info.missing_packets.length / 2) s
  else s

/-- `QuicSentPacketManager::OnIncomingAck`: the five-step ACK pipeline with
the counter reset gated on the entry snapshot of `largest_observed`. -/
def OnIncomingAck (s : SentPacketManager) (info : ReceivedPacketInfo)
    (ack_receive_time : Nat) : SentPacketManager :=
  let largest_observed_acked := IsUnackedS s info.largest_observed
  let s := MaybeUpdateRTT s info ack_receive_time
  let s := HandleAckForSentPackets s info
  let s := MaybeRetransmitOnAckFrame s info ack_receive_time
  if largest_observed_acked then
    { s with consecutive_rto_count := 0,
             consecutive_tlp_count := 0,
             consecutive_crypto_retransmission_count := 0 }
  else s

/-- `QuicSentPacketManager::GetRetransmissionMode` (precondition in the
source: some packet is pending). -/
def GetRetransmissionMode (s : SentPacketManager) : RetransmissionTimeoutMode :=
  if 0 < s.pending_crypto_packet_count then .HANDSHAKE_MODE
  else if s.consecutive_tlp_count < s.max_tail_loss_probes ∧
          HasUnackedRetransmittableFrames s then .TLP_MODE
  else .RTO_MODE

/-- `QuicSentPacketManager::OnPacketSent`.  `cc_accepts` is the congestion
controller's answer to its `OnPacketSent` callback (external code). Returns
the new state and the should-arm-timer flag. -/
def OnPacketSent (s : SentPacketManager) (sn : Nat) (sent_time bytes : Nat)
    (cc_accepts : Bool) : SentPacketManager × Bool :=
  if !IsUnackedS s sn then (s, false)
  else if !cc_accepts then (removeState s sn, false)
  else
    let set_retransmission_timer := !HasPendingPackets s
    let s1 := setPendingState s sn sent_time bytes
    (s1, set_retransmission_timer ||
         decide (GetRetransmissionMode s1 ≠ RetransmissionTimeoutMode.RTO_MODE))

/-- `QuicSentPacketManager::GetRetransmissionDelay` as a function of the
congestion controller's suggestion (microseconds) and the consecutive RTO
count.  `ToMilliseconds` truncation is `Nat` division by 1000. -/
def GetRetransmissionDelay (ccDelay_us : Nat) (rto_count : Nat) : Nat :=
  let d :=
    if ccDelay_us = 0 then kDefaultRetransmissionTimeMs * 1000
    else if ccDelay_us / 1000 < kMinRetransmissionTimeMs then
      kMinRetransmissionTimeMs * 1000
    else ccDelay_us
  let d := d * (1 <<< min rto_count kMaxRetransmissions)
  if kMaxRetransmissionTimeMs < d / 1000 then kMaxRetransmissionTimeMs * 1000
  else d

/-- `QuicSentPacketManager::DelayedAckTime` in microseconds. -/
def DelayedAckTimeUs : Nat := (kMinRetransmissionTimeMs / 2) * 1000

/-- `QuicSentPacketManager::GetCryptoRetransmissionDelay` (microseconds);
`srtt_us` is the controller's `SmoothedRtt`.  `1.5 * ms` truncated is
`3 * ms / 2` for the non-negative values involved. -/
def GetCryptoRetransmissionDelay (s : SentPacketManager) (srtt_us : Nat) :
    Nat :=
  let delay_ms := max kMinHandshakeTimeoutMs (3 * (srtt_us / 1000) / 2)
  (delay_ms <<< s.consecutive_crypto_retransmission_count) * 1000

/-- `QuicSentPacketManager::GetTailLossProbeDelay` (microseconds). -/
def GetTailLossProbeDelay (s : SentPacketManager) (srtt_us : Nat) : Nat :=
  if !HasMultiplePendingPackets s then
    max (3 * srtt_us / 2 + DelayedAckTimeUs) (2 * srtt_us)
  else
    (max kMinTailLossProbeTimeoutMs (2 * (srtt_us / 1000))) * 1000

/-- Modelled from the spec: `last_packet_sent_time` — per the source comment,
the send time of the last pending packet which still has retransmittable
frames. -/
def GetLastPacketSentTime (s : SentPacketManager) : Nat :=
  s.unacked_packets.foldl (fun acc p =>
    if p.2.pending && p.2.retransmittable_frames.isSome then p.2.sent_time
    else acc) 0

/-- Modelled from the spec: `first_pending_sent_time` — the send time of the
first (lowest-SN) pending packet. -/
def GetFirstPendingPacketSentTime (s : SentPacketManager) : Nat :=
  match s.unacked_packets.find? (fun p => p.2.pending) with
  | some p => p.2.sent_time
  | none => 0

/-- `QuicSentPacketManager::GetRetransmissionTime`: absolute deadline in
microseconds, `0` meaning "no timer" (`QuicTime::Zero`).  `now` is the
clock's `ApproximateNow`, `srtt_us` and `ccDelay_us` the controller's
`SmoothedRtt` and `RetransmissionDelay`. -/
def GetRetransmissionTime (s : SentPacketManager) (now srtt_us ccDelay_us : Nat) :
    Nat :=
  if !HasPendingPackets s then 0
  else match GetRetransmissionMode s with
  | .HANDSHAKE_MODE => now + GetCryptoRetransmissionDelay s srtt_us
  | .TLP_MODE =>
    max now (GetLastPacketSentTime s + GetTailLossProbeDelay s srtt_us)
  | .RTO_MODE =>
    max (now + 3 * srtt_us / 2)
        (GetFirstPendingPacketSentTime s +
         GetRetransmissionDelay ccDelay_us s.consecutive_rto_count)

/-- `QuicSentPacketManager::MaybeEnablePacing`: gated on the global pacing
flag; a no-op when pacing is already on; otherwise wraps the send algorithm
in a `PacingSender` with 1 µs granularity. -/
def MaybeEnablePacing (flag_enable_quic_pacing : Bool)
    (s : SentPacketManager) : SentPacketManager :=
  if !flag_enable_quic_pacing then s
  else if s.using_pacing then s
  else { s with using_pacing := true,
                send_algorithm := SendAlg.paced s.send_algorithm 1 }

/-- `QuicSentPacketManager::SetFromConfig`: adopt a negotiated initial RTT
when no sample exists yet, then enable pacing when the `kPACE` tag was
negotiated (and the global flag allows it).  The trailing delegation to the
controller's own `SetFromConfig` mutates only external state. -/
def SetFromConfig (flag_enable_quic_pacing : Bool) (s : SentPacketManager)
    (config : QuicConfig) : SentPacketManager :=
  let s := if 0 < config.initial_round_trip_time_us ∧ s.rtt_sample.isNone then
      { s with rtt_sample := some (config.initial_round_trip_time_us : Int) }
    else s
  if config.congestion_control = kPACE then MaybeEnablePacing flag_enable_quic_pacing s
  else s

/-! ### Association-list lookup lemmas -/

theorem lookupU_nil (sn : Nat) : lookupU [] sn = none := rfl

theorem lookupU_cons (p : Nat × TransmissionInfo)
    (l : List (Nat × TransmissionInfo)) (sn : Nat) :
    lookupU (p :: l) sn = if p.1 = sn then some p.2 else lookupU l sn := by
  by_cases h : p.1 = sn <;> simp [lookupU, List.find?_cons, h]

theorem lookupU_adjust_self (l : List (Nat × TransmissionInfo)) (sn : Nat)
    (f : TransmissionInfo → TransmissionInfo) :
    lookupU (adjustU l sn f) sn = (lookupU l sn).map f := by
  induction l with
  | nil => simp [lookupU, adjustU]
  | cons p rest ih =>
    by_cases h : p.1 = sn
    · simp [adjustU, lookupU_cons, h]
    · simpa [adjustU, lookupU_cons, h] using ih

theorem adjustU_cons (p : Nat × TransmissionInfo)
    (rest : List (Nat × TransmissionInfo)) (k : Nat)
    (f : TransmissionInfo → TransmissionInfo) :
    adjustU (p :: rest) k f =
      (if p.1 = k then (p.1, f p.2) else p) :: adjustU rest k f := by
  by_cases h : p.1 = k <;> simp [adjustU, h]

theorem eraseU_cons (p : Nat × TransmissionInfo)
    (rest : List (Nat × TransmissionInfo)) (k : Nat) :
    eraseU (p :: rest) k =
      if p.1 = k then eraseU rest k else p :: eraseU rest k := by
  by_cases h : p.1 = k <;> simp [eraseU, h]

theorem qerase_cons (p : Nat × TransmissionType)
    (rest : List (Nat × TransmissionType)) (k : Nat) :
    qerase (p :: rest) k =
      if p.1 = k then qerase rest k else p :: qerase rest k := by
  by_cases h : p.1 = k <;> simp [qerase, h]

theorem qinsert_nil (k : Nat) (ty : TransmissionType) :
    qinsert [] k ty = [(k, ty)] := rfl

theorem qinsert_cons (p : Nat × TransmissionType)
    (rest : List (Nat × TransmissionType)) (k : Nat) (ty : TransmissionType) :
    qinsert (p :: rest) k ty =
      if k < p.1 then (k, ty) :: p :: rest
      else if k = p.1 then (k, ty) :: rest
      else p :: qinsert rest k ty := rfl

theorem lookupU_adjust_other (l : List (Nat × TransmissionInfo)) (k : Nat)
    (f : TransmissionInfo → TransmissionInfo) (sn : Nat) (h : sn ≠ k) :
    lookupU (adjustU l k f) sn = lookupU l sn := by
  induction l with
  | nil => rfl
  | cons p rest ih =>
    rw [adjustU_cons, lookupU_cons, lookupU_cons]
    by_cases hk : p.1 = k
    · rw [if_pos hk]
      have hns : ¬ ((p.1, f p.2).1 = sn) := by simp; omega
      rw [if_neg hns, ih]
      have hns2 : ¬ (p.1 = sn) := by omega
      rw [if_neg hns2]
    · rw [if_neg hk]
      by_cases hsn : p.1 = sn
      · rw [if_pos hsn, if_pos hsn]
      · rw [if_neg hsn, if_neg hsn, ih]

theorem lookupU_erase_self (l : List (Nat × TransmissionInfo)) (sn : Nat) :
    lookupU (eraseU l sn) sn = none := by
  induction l with
  | nil => simp [lookupU, eraseU]
  | cons p rest ih =>
    by_cases h : p.1 = sn
    · simpa [eraseU, h] using ih
    · simpa [eraseU, lookupU_cons, h] using ih

theorem lookupU_erase_other (l : List (Nat × TransmissionInfo)) (k sn : Nat)
    (h : sn ≠ k) : lookupU (eraseU l k) sn = lookupU l sn := by
  induction l with
  | nil => rfl
  | cons p rest ih =>
    rw [eraseU_cons]
    by_cases hk : p.1 = k
    · rw [if_pos hk, ih, lookupU_cons]
      have hns : ¬ (p.1 = sn) := by omega
      rw [if_neg hns]
    · rw [if_neg hk, lookupU_cons, lookupU_cons, ih]

theorem lookupU_mapVals (l : List (Nat × TransmissionInfo))
    (g : TransmissionInfo → TransmissionInfo) (sn : Nat) :
    lookupU (l.map (fun p => (p.1, g p.2))) sn = (lookupU l sn).map g := by
  induction l with
  | nil => simp [lookupU]
  | cons p rest ih =>
    by_cases h : p.1 = sn
    · simp [lookupU_cons, h]
    · simpa [lookupU_cons, h] using ih

theorem qlookup_nil (sn : Nat) : qlookup [] sn = none := rfl

theorem qlookup_cons (p : Nat × TransmissionType)
    (l : List (Nat × TransmissionType)) (sn : Nat) :
    qlookup (p :: l) sn = if p.1 = sn then some p.2 else qlookup l sn := by
  by_cases h : p.1 = sn <;> simp [qlookup, List.find?_cons, h]

theorem qlookup_erase_self (l : List (Nat × TransmissionType)) (sn : Nat) :
    qlookup (qerase l sn) sn = none := by
  induction l with
  | nil => simp [qlookup, qerase]
  | cons p rest ih =>
    by_cases h : p.1 = sn
    · simpa [qerase, h] using ih
    · simpa [qerase, qlookup_cons, h] using ih

theorem qlookup_erase_other (l : List (Nat × TransmissionType)) (k sn : Nat)
    (h : sn ≠ k) : qlookup (qerase l k) sn = qlookup l sn := by
  induction l with
  | nil => rfl
  | cons p rest ih =>
    rw [qerase_cons]
    by_cases hk : p.1 = k
    · rw [if_pos hk, ih, qlookup_cons]
      have hns : ¬ (p.1 = sn) := by omega
      rw [if_neg hns]
    · rw [if_neg hk, qlookup_cons, qlookup_cons, ih]

theorem qlookup_qinsert_other (l : List (Nat × TransmissionType))
    (k : Nat) (ty : TransmissionType) (sn : Nat) (h : sn ≠ k) :
    qlookup (qinsert l k ty) sn = qlookup l sn := by
  have hk : ¬ ((k, ty).1 = sn) := by simp; omega
  induction l with
  | nil => rw [qinsert_nil, qlookup_cons, if_neg hk]
  | cons p rest ih =>
    rw [qinsert_cons]
    by_cases h1 : k < p.1
    · rw [if_pos h1, qlookup_cons, if_neg hk]
    · by_cases h2 : k = p.1
      · have hps : ¬ (p.1 = sn) := by omega
        rw [if_neg h1, if_pos h2, qlookup_cons, if_neg hk, qlookup_cons,
          if_neg hps]
      · rw [if_neg h1, if_neg h2, qlookup_cons, qlookup_cons, ih]

theorem qlookup_eq_none_iff (l : List (Nat × TransmissionType)) (sn : Nat) :
    qlookup l sn = none ↔ sn ∉ l.map Prod.fst := by
  induction l with
  | nil => simp [qlookup]
  | cons p rest ih =>
    rw [qlookup_cons, List.map_cons, List.mem_cons]
    by_cases h : p.1 = sn
    · rw [if_pos h]
      simp [h]
    · rw [if_neg h, ih]
      constructor
      · intro hn hmem
        rcases hmem with h1 | h1
        · exact h h1.symm
        · exact hn h1
      · intro hn hm
        exact hn (Or.inr hm)

theorem mem_keys_qinsert (l : List (Nat × TransmissionType)) (k : Nat)
    (ty : TransmissionType) (a : Nat)
    (h : a ∈ (qinsert l k ty).map Prod.fst) :
    a = k ∨ a ∈ l.map Prod.fst := by
  induction l with
  | nil =>
    rw [qinsert_nil, List.map_cons, List.map_nil, List.mem_cons] at h
    rcases h with h1 | h1
    · exact Or.inl h1
    · exact absurd h1 (List.not_mem_nil a)
  | cons p rest ih =>
    rw [qinsert_cons] at h
    by_cases h1 : k < p.1
    · rw [if_pos h1, List.map_cons, List.map_cons, List.mem_cons,
        List.mem_cons] at h
      rcases h with h2 | h2 | h2
      · exact Or.inl h2
      · exact Or.inr (by rw [List.map_cons, List.mem_cons]; exact Or.inl h2)
      · exact Or.inr (by rw [List.map_cons, List.mem_cons]; exact Or.inr h2)
    · by_cases h2 : k = p.1
      · rw [if_neg h1, if_pos h2, List.map_cons, List.mem_cons] at h
        rcases h with h3 | h3
        · exact Or.inl h3
        · exact Or.inr (by rw [List.map_cons, List.mem_cons]; exact Or.inr h3)
      · rw [if_neg h1, if_neg h2, List.map_cons, List.mem_cons] at h
        rcases h with h3 | h3
        · exact Or.inr (by rw [List.map_cons, List.mem_cons]; exact Or.inl h3)
        · rcases ih h3 with h4 | h4
          · exact Or.inl h4
          · exact Or.inr (by rw [List.map_cons, List.mem_cons]; exact Or.inr h4)

theorem nodup_keys_qinsert (l : List (Nat × TransmissionType)) (k : Nat)
    (ty : TransmissionType) (hk : k ∉ l.map Prod.fst)
    (h : (l.map Prod.fst).Nodup) :
    ((qinsert l k ty).map Prod.fst).Nodup := by
  induction l with
  | nil => simp [qinsert_nil]
  | cons p rest ih =>
    rw [List.map_cons, List.nodup_cons] at h
    rw [List.map_cons, List.mem_cons] at hk
    push_neg at hk
    rw [qinsert_cons]
    by_cases h1 : k < p.1
    · rw [if_pos h1, List.map_cons, List.map_cons, List.nodup_cons]
      refine ⟨?_, List.nodup_cons.mpr ⟨h.1, h.2⟩⟩
      rw [List.mem_cons]
      push_neg
      exact ⟨hk.1, hk.2⟩
    · by_cases h2 : k = p.1
      · exact absurd h2 hk.1
      · rw [if_neg h1, if_neg h2, List.map_cons, List.nodup_cons]
        refine ⟨?_, ih hk.2 h.2⟩
        intro hmem
        rcases mem_keys_qinsert rest k ty p.1 hmem with h3 | h3
        · exact h2 h3.symm
        · exact h.1 h3

/-! ### Concrete example states used by witnesses -/

/-- A pending retransmittable (non-crypto) record, its own singleton group. -/
def tiPend : TransmissionInfo :=
  { retransmittable_frames := some ⟨false⟩, sent_time := 1000,
    bytes_sent := 1200, nack_count := 0, pending := true,
    all_transmissions := [1] }

/-- A manager holding the single pending packet SN 1. -/
def sEx1 : SentPacketManager :=
  { unacked_packets := [(1, tiPend)], largest_sent_packet := 1,
    pending_retransmissions := [], rtt_sample := none,
    pending_crypto_packet_count := 0, consecutive_rto_count := 0,
    consecutive_tlp_count := 0, consecutive_crypto_retransmission_count := 0,
    max_tail_loss_probes := kDefaultMaxTailLossProbes, using_pacing := false,
    send_algorithm := SendAlg.base 0, stats_packets_lost := 0,
    stats_packets_spuriously_retransmitted := 0 }

/-! ### C6 — RTO delay computation and its range -/

/-- Shared lower bound: the RTO delay never drops below 200 ms. -/
theorem getRetransmissionDelay_lower (cc n : Nat) :
    200000 ≤ GetRetransmissionDelay cc n := by
  unfold GetRetransmissionDelay
  simp only [kDefaultRetransmissionTimeMs, kMinRetransmissionTimeMs,
    kMaxRetransmissionTimeMs, kMaxRetransmissions]
  have hpow : 1 ≤ 1 <<< min n 10 := by
    rw [Nat.shiftLeft_eq, one_mul]
    exact Nat.one_le_two_pow
  generalize hb : (if cc = 0 then 500 * 1000
      else if cc / 1000 < 200 then 200 * 1000 else cc) = b
  have hbase : 200000 ≤ b := by
    rw [← hb]
    split
    · omega
    · split
      · omega
      · next h1 h2 =>
        have h3 : 200 ≤ cc / 1000 := Nat.le_of_not_lt h2
        have h4 : 200 * 1000 ≤ cc := (Nat.le_div_iff_mul_le (by norm_num)).mp h3
        omega
  have hd : 200000 ≤ b * (1 <<< min n 10) := by
    calc 200000 ≤ b := hbase
      _ = b * 1 := (Nat.mul_one b).symm
      _ ≤ b * (1 <<< min n 10) := Nat.mul_le_mul_left b hpow
  split <;> omega

/-- Counterexample to C6 as stated: a controller suggestion of
60 000 500 µs (just above 60 s) survives the millisecond-granularity cap,
so the returned delay exceeds 60 s instead of being capped to it. -/
theorem getRetransmissionDelay_cap_counterexample :
    GetRetransmissionDelay 60000500 0 = 60000500 ∧
    60000000 < GetRetransmissionDelay 60000500 0 := by
  constructor <;> decide

/-- C6 (amended): the RTO delay is the controller suggestion (500 ms when
the suggestion is zero, floored at 200 ms) scaled by `2^min(rto_count, 10)`,
then capped to exactly 60 s only when its whole-millisecond value exceeds
60 000 ms; consequently it always lies in [200 ms, 60 s + 999 µs]. -/
theorem getRetransmissionDelay_bounds (cc n : Nat) :
    200000 ≤ GetRetransmissionDelay cc n ∧
    GetRetransmissionDelay cc n ≤ 60000999 ∧
    (GetRetransmissionDelay cc n = 60000000 ∨
     GetRetransmissionDelay cc n =
       (if cc = 0 then 500000 else max cc 200000) * 2 ^ min n 10) := by
  refine ⟨getRetransmissionDelay_lower cc n, ?_, ?_⟩
  · unfold GetRetransmissionDelay
    simp only [kDefaultRetransmissionTimeMs, kMinRetransmissionTimeMs,
      kMaxRetransmissionTimeMs, kMaxRetransmissions]
    generalize (if cc = 0 then 500 * 1000
        else if cc / 1000 < 200 then 200 * 1000 else cc) * (1 <<< min n 10) = d
    split
    · omega
    · next hcap =>
      have h1 : d / 1000 ≤ 60000 := Nat.le_of_not_lt hcap
      have h2 : d / 1000 < 60001 := by omega
      have h3 : d < 60001 * 1000 :=
        (Nat.div_lt_iff_lt_mul (show 0 < 1000 by norm_num)).mp h2
      omega
  · unfold GetRetransmissionDelay
    simp only [kDefaultRetransmissionTimeMs, kMinRetransmissionTimeMs,
      kMaxRetransmissionTimeMs, kMaxRetransmissions]
    have hD : (if cc = 0 then 500 * 1000
        else if cc / 1000 < 200 then 200 * 1000 else cc) * (1 <<< min n 10) =
        (if cc = 0 then 500000 else max cc 200000) * 2 ^ min n 10 := by
      rw [Nat.shiftLeft_eq, one_mul]
      congr 1
      split
      · rfl
      · next h0 =>
        split
        · next h1 =>
          have h2 : cc < 200 * 1000 :=
            (Nat.div_lt_iff_lt_mul (show 0 < 1000 by norm_num)).mp h1
          rw [Nat.max_eq_right (by omega : cc ≤ 200000)]
        · next h1 =>
          have h3 : 200 ≤ cc / 1000 := Nat.le_of_not_lt h1
          have h4 : 200 * 1000 ≤ cc :=
            (Nat.le_div_iff_mul_le (by norm_num)).mp h3
          rw [Nat.max_eq_left (by omega : 200000 ≤ cc)]
    rw [hD]
    generalize (if cc = 0 then 500000 else max cc 200000) * 2 ^ min n 10 = D
    split
    · exact Or.inl (by norm_num)
    · exact Or.inr rfl

/-! ### C10 — enqueueing an already-queued SN is a no-op -/

/-- C10: marking an SN for retransmission when it is already queued leaves
the state (hence the queue and the original reason) unchanged, and the
queue's keys stay duplicate-free across any enqueue. -/
theorem markForRetransmission_spec :
    (∀ (s : SentPacketManager) (sn : Nat) (ty ty0 : TransmissionType),
      qlookup s.pending_retransmissions sn = some ty0 →
      MarkForRetransmission s sn ty = s) ∧
    (∀ (s : SentPacketManager) (sn : Nat) (ty : TransmissionType),
      (s.pending_retransmissions.map Prod.fst).Nodup →
      (((MarkForRetransmission s sn ty).pending_retransmissions.map
          Prod.fst)).Nodup) := by
  constructor
  · intro s sn ty ty0 h
    unfold MarkForRetransmission
    rw [h]
    simp
  · intro s sn ty h
    unfold MarkForRetransmission
    cases hq : qlookup s.pending_retransmissions sn with
    | some ty0 => simpa [hq]
    | none =>
      simp only [hq, Option.isSome_none, Bool.false_eq_true, if_false]
      exact nodup_keys_qinsert _ sn ty
        ((qlookup_eq_none_iff _ sn).mp hq) h

/-- Witness for C10 at a concrete queue holding SN 4 with reason NACK. -/
theorem markForRetransmission_spec_witness :
    MarkForRetransmission
      { sEx1 with pending_retransmissions :=
          [(4, TransmissionType.NACK_RETRANSMISSION)] } 4
      TransmissionType.RTO_RETRANSMISSION =
    { sEx1 with pending_retransmissions :=
        [(4, TransmissionType.NACK_RETRANSMISSION)] } := by
  exact markForRetransmission_spec.1 _ 4 TransmissionType.RTO_RETRANSMISSION
    TransmissionType.NACK_RETRANSMISSION (by decide)

/-! ### C3 — retransmission-mode selection -/

/-- C3: with at least one pending packet, the mode is HANDSHAKE exactly when
crypto packets are outstanding; otherwise TLP exactly when the TLP budget
(default `kDefaultMaxTailLossProbes = 2`) is not exhausted and unacked
retransmittable frames exist; otherwise RTO. -/
theorem getRetransmissionMode_spec (s : SentPacketManager)
    (hpending : HasPendingPackets s = true) :
    (GetRetransmissionMode s = RetransmissionTimeoutMode.HANDSHAKE_MODE ↔
      0 < s.pending_crypto_packet_count) ∧
    (GetRetransmissionMode s = RetransmissionTimeoutMode.TLP_MODE ↔
      (s.pending_crypto_packet_count = 0 ∧
       s.consecutive_tlp_count < s.max_tail_loss_probes ∧
       HasUnackedRetransmittableFrames s = true)) ∧
    (GetRetransmissionMode s = RetransmissionTimeoutMode.RTO_MODE ↔
      (s.pending_crypto_packet_count = 0 ∧
       ¬(s.consecutive_tlp_count < s.max_tail_loss_probes ∧
         HasUnackedRetransmittableFrames s = true))) ∧
    kDefaultMaxTailLossProbes = 2 := by
  unfold GetRetransmissionMode
  by_cases h1 : 0 < s.pending_crypto_packet_count
  · rw [if_pos h1]
    refine ⟨iff_of_true rfl h1, ?_, ?_, rfl⟩
    · exact iff_of_false (by decide)
        (fun hcon => by rcases hcon with ⟨hc, _⟩; omega)
    · exact iff_of_false (by decide)
        (fun hcon => by rcases hcon with ⟨hc, _⟩; omega)
  · rw [if_neg h1]
    have h0 : s.pending_crypto_packet_count = 0 := by omega
    by_cases h2 : s.consecutive_tlp_count < s.max_tail_loss_probes ∧
        HasUnackedRetransmittableFrames s = true
    · rw [if_pos h2]
      refine ⟨iff_of_false (by decide) h1, ?_, ?_, rfl⟩
      · exact iff_of_true rfl ⟨h0, h2.1, h2.2⟩
      · exact iff_of_false (by decide) (fun hcon => hcon.2 h2)
    · rw [if_neg h2]
      refine ⟨iff_of_false (by decide) h1, ?_, ?_, rfl⟩
      · exact iff_of_false (by decide)
          (fun hcon => h2 ⟨hcon.2.1, hcon.2.2⟩)
      · exact iff_of_true rfl ⟨h0, h2⟩

/-- Witness for C3: `sEx1` has a pending non-crypto retransmittable packet
and a fresh TLP budget, so the selector answers TLP. -/
theorem getRetransmissionMode_spec_witness :
    HasPendingPackets sEx1 = true ∧
    GetRetransmissionMode sEx1 = RetransmissionTimeoutMode.TLP_MODE := by
  refine ⟨by decide, ?_⟩
  exact (getRetransmissionMode_spec sEx1 (by decide)).2.1.mpr
    ⟨rfl, by decide, by decide⟩

/-! ### C9 — pacing configuration -/

/-- A configuration that negotiates the PACE congestion-control tag. -/
def cfgPACE : QuicConfig :=
  { initial_round_trip_time_us := 0, congestion_control := kPACE }

/-- Counterexample to C9 as stated: with the pacing flag at its default
(false), `SetFromConfig` on a PACE configuration does not enable pacing. -/
theorem setFromConfig_pacing_counterexample :
    cfgPACE.congestion_control = kPACE ∧
    FLAGS_enable_quic_pacing_default = false ∧
    sEx1.using_pacing = false ∧
    (SetFromConfig FLAGS_enable_quic_pacing_default sEx1 cfgPACE).using_pacing
      = false := by
  refine ⟨rfl, rfl, rfl, ?_⟩
  decide

/-- C9 (amended): when the FLAGS_enable_quic_pacing global is set, a PACE
configuration wraps the send algorithm in a 1 µs pacing decorator; the wrap
is one-way — once pacing is on, no call re-wraps or undoes it — and with the
flag clear the algorithm and the pacing bit are untouched. -/
theorem setFromConfig_pacing_spec (flag : Bool) (s : SentPacketManager)
    (config : QuicConfig) :
    (config.congestion_control = kPACE → flag = true → s.using_pacing = false →
      (SetFromConfig flag s config).using_pacing = true ∧
      (SetFromConfig flag s config).send_algorithm =
        SendAlg.paced s.send_algorithm 1) ∧
    (s.using_pacing = true →
      (SetFromConfig flag s config).using_pacing = true ∧
      (SetFromConfig flag s config).send_algorithm = s.send_algorithm) ∧
    (flag = false →
      (SetFromConfig flag s config).using_pacing = s.using_pacing ∧
      (SetFromConfig flag s config).send_algorithm = s.send_algorithm) := by
  unfold SetFromConfig MaybeEnablePacing
  split_ifs <;> simp_all

/-- Witness for the C9 amended theorem: flag set, PACE negotiated, pacing
previously off — the algorithm ends up wrapped. -/
theorem setFromConfig_pacing_spec_witness :
    (SetFromConfig true sEx1 cfgPACE).using_pacing = true ∧
    (SetFromConfig true sEx1 cfgPACE).send_algorithm =
      SendAlg.paced (SendAlg.base 0) 1 := by
  have h := (setFromConfig_pacing_spec true sEx1 cfgPACE).1 rfl rfl (by decide)
  exact ⟨h.1, h.2⟩

/-! ### C2 — OnPacketSent -/

/-- The record under `sn` is pending after `set_pending(sn, ...)`. -/
theorem isPending_setPending (s : SentPacketManager) (sn t b : Nat)
    (h : IsUnackedS s sn = true) :
    IsPendingS (setPendingState s sn t b) sn = true := by
  unfold IsUnackedS at h
  unfold IsPendingS setPendingState
  simp only [lookupU_adjust_self]
  cases hl : lookupU s.unacked_packets sn with
  | none => rw [hl] at h; simp at h
  | some ti => simp [hl]

/-- C2: `on_sent` returns false without touching state when the SN has
already left the table; removes the record and returns false when the
congestion controller refuses to track the packet; otherwise marks the
record pending and answers true exactly when no other packet was pending
before the send or the (post-send) retransmission mode is not RTO. -/
theorem onPacketSent_spec (s : SentPacketManager) (sn t b : Nat) (cc : Bool) :
    (IsUnackedS s sn = false → OnPacketSent s sn t b cc = (s, false)) ∧
    (IsUnackedS s sn = true → cc = false →
      OnPacketSent s sn t b cc = (removeState s sn, false)) ∧
    (IsUnackedS s sn = true → cc = true →
      (OnPacketSent s sn t b cc).1 = setPendingState s sn t b ∧
      IsPendingS (OnPacketSent s sn t b cc).1 sn = true ∧
      ((OnPacketSent s sn t b cc).2 = true ↔
        (HasPendingPackets s = false ∨
         GetRetransmissionMode (setPendingState s sn t b) ≠
           RetransmissionTimeoutMode.RTO_MODE))) := by
  refine ⟨?_, ?_, ?_⟩
  · intro h
    unfold OnPacketSent
    rw [h]
    simp
  · intro h hcc
    unfold OnPacketSent
    rw [h, hcc]
    simp
  · intro h hcc
    subst hcc
    have hred : OnPacketSent s sn t b true =
        (setPendingState s sn t b,
         (!HasPendingPackets s) ||
           decide (GetRetransmissionMode (setPendingState s sn t b) ≠
             RetransmissionTimeoutMode.RTO_MODE)) := by
      unfold OnPacketSent
      rw [h]
      rfl
    rw [hred]
    exact ⟨rfl, isPending_setPending s sn t b h,
      by simp [Bool.or_eq_true, decide_eq_true_eq, Bool.not_eq_true']⟩

/-- Witness for C2: sending the tracked SN 1 of `sEx1` with an accepting
controller marks it pending. -/
theorem onPacketSent_spec_witness :
    (OnPacketSent sEx1 1 2000 500 true).1 = setPendingState sEx1 1 2000 500 ∧
    IsPendingS (OnPacketSent sEx1 1 2000 500 true).1 1 = true := by
  have h := (onPacketSent_spec sEx1 1 2000 500 true).2.2 (by decide) rfl
  exact ⟨h.1, h.2.1⟩

/-! ### C8 — RTT sampling -/

/-- C8 (amended): under the precondition that `largest_observed` is still
unacked AND was actually sent (`sent_time ≠ 0`), the sampler behaves as the
claim states; when `sent_time = 0` (serialized but not yet sent — the
tolerated ack race), the sample is left unchanged. -/
theorem maybeUpdateRTT_eq (s : SentPacketManager) (info : ReceivedPacketInfo)
    (t : Nat) (ti : TransmissionInfo)
    (h : lookupU s.unacked_packets info.largest_observed = some ti) :
    MaybeUpdateRTT s info t =
      (if ti.sent_time = 0 then s
       else if ((t : Int) - (ti.sent_time : Int)) >
           info.delta_time_largest_observed then
         { s with rtt_sample := some ((t : Int) - (ti.sent_time : Int) -
             info.delta_time_largest_observed) }
       else if s.rtt_sample.isNone then
         { s with rtt_sample := some ((t : Int) - (ti.sent_time : Int)) }
       else s) := by
  unfold MaybeUpdateRTT
  rw [h]

/-- C8 (amended): under the precondition that `largest_observed` is still
unacked AND was actually sent (`sent_time ≠ 0`), the sampler behaves as the
claim states; when `sent_time = 0` (serialized but not yet sent — the
tolerated ack race), the sample is left unchanged. -/
theorem maybeUpdateRTT_spec (s : SentPacketManager) (info : ReceivedPacketInfo)
    (t : Nat) (ti : TransmissionInfo)
    (h : lookupU s.unacked_packets info.largest_observed = some ti) :
    (ti.sent_time = 0 → (MaybeUpdateRTT s info t).rtt_sample = s.rtt_sample) ∧
    (ti.sent_time ≠ 0 →
      (((t : Int) - (ti.sent_time : Int) > info.delta_time_largest_observed →
        (MaybeUpdateRTT s info t).rtt_sample =
          some ((t : Int) - (ti.sent_time : Int) -
            info.delta_time_largest_observed)) ∧
       (¬((t : Int) - (ti.sent_time : Int) >
           info.delta_time_largest_observed) →
        s.rtt_sample = none →
        (MaybeUpdateRTT s info t).rtt_sample =
          some ((t : Int) - (ti.sent_time : Int))) ∧
       (¬((t : Int) - (ti.sent_time : Int) >
           info.delta_time_largest_observed) →
        s.rtt_sample ≠ none →
        (MaybeUpdateRTT s info t).rtt_sample = s.rtt_sample))) := by
  rw [maybeUpdateRTT_eq s info t ti h]
  constructor
  · intro h0
    rw [if_pos h0]
  · intro h0
    rw [if_neg h0]
    refine ⟨?_, ?_, ?_⟩
    · intro hgt
      rw [if_pos hgt]
    · intro hngt hnone
      rw [if_neg hngt, if_pos (by simp [hnone])]
    · intro hngt hsome
      rw [if_neg hngt, if_neg (by simp [Option.isNone_iff_eq_none, hsome])]

/-- A record that was serialized but never sent (`sent_time = 0`). -/
def tiUnsent : TransmissionInfo :=
  { retransmittable_frames := some ⟨false⟩, sent_time := 0, bytes_sent := 0,
    nack_count := 0, pending := false, all_transmissions := [5] }

/-- Manager in which SN 5 is unacked but unsent, with no RTT sample yet. -/
def sC8 : SentPacketManager :=
  { sEx1 with unacked_packets := [(5, tiUnsent)] }

/-- The ACK frame exercising the C8 counterexample. -/
def infoC8 : ReceivedPacketInfo :=
  { largest_observed := 5, delta_time_largest_observed := 0,
    missing_packets := [], revived_packets := [], is_truncated := false }

/-- Counterexample to C8 as stated: `largest_observed = 5` is still unacked
(the claimed precondition holds) and `send_delta = 100000 - 0 > 0 = delta`,
yet the sampler leaves `rtt_sample` unchanged because the record was never
sent (`sent_time = 0`), instead of storing `send_delta - delta`. -/
theorem maybeUpdateRTT_counterexample :
    IsUnackedS sC8 5 = true ∧
    ((100000 : Int) - (tiUnsent.sent_time : Int) >
      infoC8.delta_time_largest_observed) ∧
    (MaybeUpdateRTT sC8 infoC8 100000).rtt_sample ≠
      some ((100000 : Int) - (tiUnsent.sent_time : Int) -
        infoC8.delta_time_largest_observed) := by
  refine ⟨by decide, by decide, by decide⟩

/-- Witness for the C8 amended theorem: an informative ACK of the sent
SN 1 at t = 101000 µs with zero reported delay yields a 100 ms sample. -/
theorem maybeUpdateRTT_spec_witness :
    (MaybeUpdateRTT sEx1
      { largest_observed := 1, delta_time_largest_observed := 0,
        missing_packets := [], revived_packets := [], is_truncated := false }
      101000).rtt_sample = some 100000 := by
  have h := ((maybeUpdateRTT_spec sEx1
      { largest_observed := 1, delta_time_largest_observed := 0,
        missing_packets := [], revived_packets := [], is_truncated := false }
      101000 tiPend (by decide)).2 (by decide)).1 (by decide)
  exact h.trans (by decide)

/-! ### C7 — retransmission-timer value -/

/-- The crypto retransmission delay is strictly positive. -/
theorem getCryptoRetransmissionDelay_pos (s : SentPacketManager) (srtt : Nat) :
    0 < GetCryptoRetransmissionDelay s srtt := by
  unfold GetCryptoRetransmissionDelay
  simp only [kMinHandshakeTimeoutMs]
  have h1 : 0 < max 10 (3 * (srtt / 1000) / 2) :=
    lt_of_lt_of_le (by norm_num) (le_max_left _ _)
  have h2 : 0 < (max 10 (3 * (srtt / 1000) / 2)) <<<
      s.consecutive_crypto_retransmission_count := by
    rw [Nat.shiftLeft_eq]
    exact Nat.mul_pos h1 (pow_pos (by norm_num) _)
  exact Nat.mul_pos h2 (by norm_num)

/-- The tail-loss-probe delay is strictly positive. -/
theorem getTailLossProbeDelay_pos (s : SentPacketManager) (srtt : Nat) :
    0 < GetTailLossProbeDelay s srtt := by
  unfold GetTailLossProbeDelay DelayedAckTimeUs
  simp only [kMinRetransmissionTimeMs, kMinTailLossProbeTimeoutMs]
  split
  · have h1 : 0 < 3 * srtt / 2 + 200 / 2 * 1000 := by omega
    exact lt_of_lt_of_le h1 (le_max_left _ _)
  · have h1 : (0 : Nat) < max 10 (2 * (srtt / 1000)) :=
      lt_of_lt_of_le (by norm_num) (le_max_left _ _)
    exact Nat.mul_pos h1 (by norm_num)

/-- C7: the timer value is the zero time exactly when nothing is pending,
and whenever a timer is returned its deadline is at or after `now`, in all
three modes. -/
theorem getRetransmissionTime_spec (s : SentPacketManager)
    (now srtt cc : Nat) :
    (GetRetransmissionTime s now srtt cc = 0 ↔
      HasPendingPackets s = false) ∧
    (HasPendingPackets s = true →
      now ≤ GetRetransmissionTime s now srtt cc) := by
  cases hp : HasPendingPackets s with
  | false =>
    unfold GetRetransmissionTime
    rw [hp]
    simp
  | true =>
    unfold GetRetransmissionTime
    rw [hp]
    simp only [Bool.not_true, Bool.false_eq_true, if_false]
    have hcr := getCryptoRetransmissionDelay_pos s srtt
    have htlp := getTailLossProbeDelay_pos s srtt
    have hrd := getRetransmissionDelay_lower cc s.consecutive_rto_count
    cases hmode : GetRetransmissionMode s with
    | HANDSHAKE_MODE =>
      simp only [hmode]
      exact ⟨iff_of_false (by omega) (by simp), fun _ => by omega⟩
    | TLP_MODE =>
      simp only [hmode]
      have h1 : GetLastPacketSentTime s + GetTailLossProbeDelay s srtt ≤
          max now (GetLastPacketSentTime s + GetTailLossProbeDelay s srtt) :=
        Nat.le_max_right _ _
      have h2 : now ≤
          max now (GetLastPacketSentTime s + GetTailLossProbeDelay s srtt) :=
        Nat.le_max_left _ _
      exact ⟨iff_of_false (by omega) (by simp), fun _ => h2⟩
    | RTO_MODE =>
      simp only [hmode]
      have h1 : now + 3 * srtt / 2 ≤
          max (now + 3 * srtt / 2)
            (GetFirstPendingPacketSentTime s +
              GetRetransmissionDelay cc s.consecutive_rto_count) :=
        Nat.le_max_left _ _
      have h2 : GetFirstPendingPacketSentTime s +
            GetRetransmissionDelay cc s.consecutive_rto_count ≤
          max (now + 3 * srtt / 2)
            (GetFirstPendingPacketSentTime s +
              GetRetransmissionDelay cc s.consecutive_rto_count) :=
        Nat.le_max_right _ _
      exact ⟨iff_of_false (by omega) (by simp), fun _ => by omega⟩

/-- Witness for C7: `sEx1` has a pending packet, so a real deadline at or
after `now = 7000` is returned. -/
theorem getRetransmissionTime_spec_witness :
    HasPendingPackets sEx1 = true ∧
    7000 ≤ GetRetransmissionTime sEx1 7000 100000 0 := by
  refine ⟨by decide, ?_⟩
  exact (getRetransmissionTime_spec sEx1 7000 100000 0).2 (by decide)

/-! ### C1 — loss detection -/

/-- On a key-sorted table, membership in the `takeWhile` prefix up to
`largest_observed` is plain membership plus the key bound (the early break
of the C++ iterator loses nothing on a sorted map). -/
theorem mem_takeWhile_le_iff (l : List (Nat × TransmissionInfo))
    (hs : l.Pairwise (fun a b => a.1 < b.1)) (lo : Nat)
    (p : Nat × TransmissionInfo) :
    p ∈ l.takeWhile (fun q => q.1 ≤ lo) ↔ p ∈ l ∧ p.1 ≤ lo := by
  induction l with
  | nil => simp
  | cons q rest ih =>
    rw [List.pairwise_cons] at hs
    by_cases hq : q.1 ≤ lo
    · rw [List.takeWhile_cons_of_pos (by simpa using hq), List.mem_cons,
        List.mem_cons, ih hs.2]
      constructor
      · rintro (h1 | h1)
        · exact ⟨Or.inl h1, by rw [h1]; exact hq⟩
        · exact ⟨Or.inr h1.1, h1.2⟩
      · rintro ⟨h1 | h1, h2⟩
        · exact Or.inl h1
        · exact Or.inr ⟨h1, h2⟩
    · rw [List.takeWhile_cons_of_neg (by simpa using hq)]
      constructor
      · intro h1
        exact absurd h1 (List.not_mem_nil p)
      · rintro ⟨h1, h2⟩
        rcases List.mem_cons.mp h1 with h3 | h3
        · exact absurd (h3 ▸ h2) hq
        · exact absurd h2 (by have := hs.1 p h3; omega)

/-- C1: on a table snapshot, a sequence number is declared lost exactly
when it is recorded pending, lies at or below `largest_observed`, and its
nack count has reached the required threshold — `largest_observed − sn`
when the record still has retransmittable frames and
`largest_sent = largest_observed` (early retransmit), 3 otherwise.
Non-pending records and SNs above `largest_observed` are never declared
lost. -/
theorem detectLostPackets_mem_iff (packets : List (Nat × TransmissionInfo))
    (hs : packets.Pairwise (fun a b => a.1 < b.1)) (time ls lo sn : Nat) :
    sn ∈ DetectLostPackets packets time ls lo ↔
      ∃ ti, (sn, ti) ∈ packets ∧ ti.pending = true ∧ sn ≤ lo ∧
        (if ti.retransmittable_frames.isSome ∧ ls = lo then lo - sn
         else kNumberOfNacksBeforeRetransmission) ≤ ti.nack_count := by
  unfold DetectLostPackets
  rw [List.mem_filterMap]
  constructor
  · rintro ⟨⟨k, ti⟩, hp, hf⟩
    have hmem := (mem_takeWhile_le_iff packets hs lo (k, ti)).mp hp
    by_cases hpend : ti.pending = true
    · by_cases hcondb : (ti.retransmittable_frames.isSome && (ls == lo)) = true
      · have hcond : ti.retransmittable_frames.isSome = true ∧ ls = lo := by
          simpa using hcondb
        by_cases hlt : ti.nack_count < lo - k
        · exfalso
          simp [hpend, hcondb, hlt] at hf
        · have hsn : k = sn := by
            simp [hpend, hcondb, hlt] at hf
            exact hf
          subst hsn
          refine ⟨ti, hmem.1, hpend, hmem.2, ?_⟩
          rw [if_pos hcond]
          omega
      · have hbf : (ti.retransmittable_frames.isSome && (ls == lo)) = false := by
          cases hx : (ti.retransmittable_frames.isSome && (ls == lo)) with
          | false => rfl
          | true => exact absurd hx hcondb
        by_cases hlt : ti.nack_count < kNumberOfNacksBeforeRetransmission
        · exfalso
          simp [hpend, hbf, hlt] at hf
        · have hsn : k = sn := by
            simp [hpend, hbf, hlt] at hf
            exact hf
          subst hsn
          refine ⟨ti, hmem.1, hpend, hmem.2, ?_⟩
          rw [if_neg (by simpa using hcondb)]
          omega
    · exfalso
      have hpf : ti.pending = false := by
        cases hx : ti.pending with
        | false => rfl
        | true => exact absurd hx hpend
      simp [hpf] at hf
  · rintro ⟨ti, hmem, hpend, hle, hnack⟩
    refine ⟨(sn, ti),
      (mem_takeWhile_le_iff packets hs lo _).mpr ⟨hmem, hle⟩, ?_⟩
    by_cases hcondb : (ti.retransmittable_frames.isSome && (ls == lo)) = true
    · have hcond : ti.retransmittable_frames.isSome = true ∧ ls = lo := by
        simpa using hcondb
      rw [if_pos hcond] at hnack
      simp [hpend, hcondb]
      omega
    · have hbf : (ti.retransmittable_frames.isSome && (ls == lo)) = false := by
        cases hx : (ti.retransmittable_frames.isSome && (ls == lo)) with
        | false => rfl
        | true => exact absurd hx hcondb
      rw [if_neg (by simpa using hcondb)] at hnack
      simp [hpend, hbf]
      omega

/-- A pending record whose nack count has reached the default threshold. -/
def tiNacked : TransmissionInfo :=
  { retransmittable_frames := some ⟨false⟩, sent_time := 1000,
    bytes_sent := 1200, nack_count := 3, pending := true,
    all_transmissions := [1] }

/-- Witness for C1: with `largest_sent = 5 ≠ largest_observed = 4` the
default threshold of 3 applies, and the thrice-nacked pending SN 1 is
declared lost. -/
theorem detectLostPackets_mem_iff_witness :
    1 ∈ DetectLostPackets [(1, tiNacked)] 0 5 4 := by
  exact (detectLostPackets_mem_iff [(1, tiNacked)] (by simp) 0 5 4 1).mpr
    ⟨tiNacked, by simp, by decide, by decide, by decide⟩

/-! ### C4 — counter reset on forward progress -/

/-- The triple of consecutive-retransmission counters. -/
def counters (s : SentPacketManager) : Nat × Nat × Nat :=
  (s.consecutive_rto_count, s.consecutive_tlp_count,
   s.consecutive_crypto_retransmission_count)

theorem markPacketHandled_none (s : SentPacketManager) (sn : Nat) (rbp : Bool)
    (h : lookupU s.unacked_packets sn = none) :
    MarkPacketHandled s sn rbp = s := by
  unfold MarkPacketHandled
  rw [h]

theorem markPacketHandled_eq (s : SentPacketManager) (sn : Nat) (rbp : Bool)
    (ti : TransmissionInfo) (h : lookupU s.unacked_packets sn = some ti) :
    MarkPacketHandled s sn rbp =
      (let s1 := if ti.pending then setNotPendingState s sn else s
       let newest := ti.all_transmissions.getLastD 0
       let s2 := if newest ≠ sn then
           { s1 with stats_packets_spuriously_retransmitted := s1.stats_packets_spuriously_retransmitted + 1 }
         else s1
       let has_crypto := hasCryptoHandshakeAt s2 newest
       let s3 := if has_crypto then
           { s2 with pending_crypto_packet_count := s2.pending_crypto_packet_count - 1 }
         else s2
       ti.all_transmissions.reverse.foldl (mphStep has_crypto) s3) := by
  unfold MarkPacketHandled
  rw [h]

/-- Property preservation along a fold over the manager state. -/
theorem foldl_preserves {α : Type} (P : SentPacketManager → Prop)
    (f : SentPacketManager → α → SentPacketManager)
    (hf : ∀ st a, P st → P (f st a)) :
    ∀ (l : List α) (st : SentPacketManager), P st → P (l.foldl f st) := by
  intro l
  induction l with
  | nil => intro st h; exact h
  | cons a rest ih =>
    intro st h
    exact ih (f st a) (hf st a h)

theorem counters_mphStep (hc : Bool) (st : SentPacketManager) (prev : Nat) :
    counters (mphStep hc st prev) = counters st := by
  simp only [mphStep, OnPacketAbandonedState]
  split_ifs <;> rfl

theorem counters_foldl_mphStep (hc : Bool) (l : List Nat) :
    ∀ st : SentPacketManager, counters (l.foldl (mphStep hc) st) = counters st := by
  induction l with
  | nil => intro st; rfl
  | cons a rest ih =>
    intro st
    rw [List.foldl_cons, ih, counters_mphStep]

theorem counters_markPacketHandled (s : SentPacketManager) (sn : Nat)
    (rbp : Bool) : counters (MarkPacketHandled s sn rbp) = counters s := by
  cases h : lookupU s.unacked_packets sn with
  | none => rw [markPacketHandled_none s sn rbp h]
  | some ti =>
    rw [markPacketHandled_eq s sn rbp ti h]
    simp only [counters_foldl_mphStep]
    split_ifs <;> rfl

theorem counters_maybeUpdateRTT (s : SentPacketManager)
    (info : ReceivedPacketInfo) (t : Nat) :
    counters (MaybeUpdateRTT s info t) = counters s := by
  cases h : lookupU s.unacked_packets info.largest_observed with
  | none =>
    have heq : MaybeUpdateRTT s info t = s := by
      unfold MaybeUpdateRTT
      rw [h]
    rw [heq]
  | some ti =>
    rw [maybeUpdateRTT_eq s info t ti h]
    split_ifs <;> rfl

theorem counters_handleAckLoop (fuel : Nat) (info : ReceivedPacketInfo) :
    ∀ (cursor : Nat) (s : SentPacketManager),
    counters (handleAckLoop fuel info cursor s) = counters s := by
  induction fuel with
  | zero => intro cursor s; rfl
  | succ n ih =>
    intro cursor s
    unfold handleAckLoop
    cases hk : firstKeyGE s.unacked_packets cursor with
    | none => rfl
    | some sn =>
      simp only [hk]
      split_ifs with h1 h2
      · rfl
      · exact ih (sn + 1) s
      · rw [ih sn (MarkPacketHandled s sn true),
          counters_markPacketHandled]

theorem counters_clearLoop (keys : List Nat) :
    ∀ (k : Nat) (s : SentPacketManager),
    counters (clearLoop keys k s) = counters s := by
  induction keys with
  | nil => intro k s; rfl
  | cons sn rest ih =>
    intro k s
    unfold clearLoop
    by_cases h1 : k = 0
    · rw [if_pos h1]
    · rw [if_neg h1]
      cases hl : lookupU s.unacked_packets sn with
      | none => exact ih k s
      | some ti =>
        simp only [hl]
        split_ifs with h2
        · rw [ih (k - 1) (removeState s sn)]
          rfl
        · exact ih k s

theorem counters_revivedFold (revived : List Nat) :
    ∀ st : SentPacketManager, counters (revived.foldl (fun st r =>
      if IsUnackedS st r then
        if IsPendingS st r then neuterState st r else removeState st r
      else st) st) = counters st := by
  induction revived with
  | nil => intro st; rfl
  | cons a rest ih =>
    intro st
    rw [List.foldl_cons, ih]
    split_ifs <;> rfl

theorem counters_handleAckForSentPackets (s : SentPacketManager)
    (info : ReceivedPacketInfo) :
    counters (HandleAckForSentPackets s info) = counters s := by
  unfold HandleAckForSentPackets
  simp only [counters_revivedFold]
  split_ifs with htr
  · rw [counters_clearLoop, counters_revivedFold, counters_handleAckLoop]
  · rw [counters_revivedFold, counters_handleAckLoop]

theorem counters_lostFold (lost : List Nat) :
    ∀ st : SentPacketManager, counters (lost.foldl (fun st sn =>
      let st1 := { st with stats_packets_lost := st.stats_packets_lost + 1 }
      let st2 := OnPacketAbandonedState st1 sn
      if HasRetransmittableFramesS st2 sn then
        MarkForRetransmission st2 sn TransmissionType.NACK_RETRANSMISSION
      else removeState st2 sn) st) = counters st := by
  induction lost with
  | nil => intro st; rfl
  | cons a rest ih =>
    intro st
    rw [List.foldl_cons, ih]
    simp only [OnPacketAbandonedState, MarkForRetransmission]
    split_ifs <;> rfl

theorem counters_maybeRetransmitOnAckFrame (s : SentPacketManager)
    (info : ReceivedPacketInfo) (t : Nat) :
    counters (MaybeRetransmitOnAckFrame s info t) = counters s := by
  unfold MaybeRetransmitOnAckFrame
  simp only [counters_lostFold]
  rfl

/-- C4: an ACK whose `largest_observed` was still unacked on entry zeroes
all three consecutive-retransmission counters; otherwise `on_ack` leaves
all three counters exactly as they were. -/
theorem onIncomingAck_counters_spec (s : SentPacketManager)
    (info : ReceivedPacketInfo) (t : Nat) :
    (IsUnackedS s info.largest_observed = true →
      (OnIncomingAck s info t).consecutive_rto_count = 0 ∧
      (OnIncomingAck s info t).consecutive_tlp_count = 0 ∧
      (OnIncomingAck s info t).consecutive_crypto_retransmission_count = 0) ∧
    (IsUnackedS s info.largest_observed = false →
      (OnIncomingAck s info t).consecutive_rto_count =
        s.consecutive_rto_count ∧
      (OnIncomingAck s info t).consecutive_tlp_count =
        s.consecutive_tlp_count ∧
      (OnIncomingAck s info t).consecutive_crypto_retransmission_count =
        s.consecutive_crypto_retransmission_count) := by
  constructor
  · intro h
    unfold OnIncomingAck
    rw [h]
    simp
  · intro h
    unfold OnIncomingAck
    rw [h]
    simp only [Bool.false_eq_true, if_false]
    have hc : counters (MaybeRetransmitOnAckFrame
        (HandleAckForSentPackets (MaybeUpdateRTT s info t) info) info t) =
        counters s := by
      rw [counters_maybeRetransmitOnAckFrame, counters_handleAckForSentPackets,
        counters_maybeUpdateRTT]
    exact ⟨congrArg Prod.fst hc,
      congrArg (fun x => x.2.1) hc, congrArg (fun x => x.2.2) hc⟩

/-- Witness for C4 at a concrete informative ACK: the counters of a state
with nonzero counters are zeroed. -/
theorem onIncomingAck_counters_spec_witness :
    (OnIncomingAck
      { sEx1 with consecutive_rto_count := 3, consecutive_tlp_count := 2,
                  consecutive_crypto_retransmission_count := 1 }
      { largest_observed := 1, delta_time_largest_observed := 0,
        missing_packets := [], revived_packets := [], is_truncated := false }
      101000).consecutive_rto_count = 0 := by
  exact ((onIncomingAck_counters_spec
      { sEx1 with consecutive_rto_count := 3, consecutive_tlp_count := 2,
                  consecutive_crypto_retransmission_count := 1 }
      { largest_observed := 1, delta_time_largest_observed := 0,
        missing_packets := [], revived_packets := [], is_truncated := false }
      101000).1 (by decide)).1

/-! ### C5 — acked packets leave the queue; group removal/neutering -/

theorem lookupU_eq_none_iff (l : List (Nat × TransmissionInfo)) (sn : Nat) :
    lookupU l sn = none ↔ sn ∉ l.map Prod.fst := by
  induction l with
  | nil => simp [lookupU]
  | cons p rest ih =>
    rw [lookupU_cons, List.map_cons, List.mem_cons]
    by_cases h : p.1 = sn
    · rw [if_pos h]
      simp [h]
    · rw [if_neg h, ih]
      constructor
      · intro hn hmem
        rcases hmem with h1 | h1
        · exact h h1.symm
        · exact hn h1
      · intro hn hm
        exact hn (Or.inr hm)

theorem lookupU_isSome_of_mem (l : List (Nat × TransmissionInfo))
    (x : Nat) (ti : TransmissionInfo) (h : (x, ti) ∈ l) :
    (lookupU l x).isSome = true := by
  induction l with
  | nil => exact absurd h (List.not_mem_nil _)
  | cons p rest ih =>
    rw [lookupU_cons]
    by_cases hp : p.1 = x
    · rw [if_pos hp]
      rfl
    · rw [if_neg hp]
      rcases List.mem_cons.mp h with h1 | h1
      · exact absurd (congrArg Prod.fst h1.symm) hp
      · exact ih h1

theorem mem_of_lookupU (l : List (Nat × TransmissionInfo)) (sn : Nat)
    (ti : TransmissionInfo) (h : lookupU l sn = some ti) : (sn, ti) ∈ l := by
  induction l with
  | nil => simp [lookupU] at h
  | cons p rest ih =>
    rw [lookupU_cons] at h
    by_cases hp : p.1 = sn
    · rw [if_pos hp] at h
      have : p = (sn, ti) := by
        have h2 := Option.some.inj h
        calc p = (p.1, p.2) := rfl
          _ = (sn, ti) := by rw [hp, h2]
      exact this ▸ List.mem_cons_self p rest
    · rw [if_neg hp] at h
      exact List.mem_cons_of_mem p (ih h)

/-- The (frames, pending) view of the record under a key — the part of a
record that group processing of *other* members never changes. -/
def frameP (s : SentPacketManager) (m : Nat) :
    Option (Option RetransmittableFrames × Bool) :=
  (lookupU s.unacked_packets m).map
    (fun ti => (ti.retransmittable_frames, ti.pending))

theorem isPendingS_eq_of_frameP (s s' : SentPacketManager) (m : Nat)
    (h : frameP s' m = frameP s m) : IsPendingS s' m = IsPendingS s m := by
  unfold frameP at h
  unfold IsPendingS
  cases h1 : lookupU s'.unacked_packets m with
  | none =>
    cases h2 : lookupU s.unacked_packets m with
    | none => rfl
    | some ti =>
      rw [h1, h2] at h
      exact absurd h (by simp)
  | some ti' =>
    cases h2 : lookupU s.unacked_packets m with
    | none =>
      rw [h1, h2] at h
      exact absurd h (by simp)
    | some ti =>
      rw [h1, h2] at h
      have h3 := congrArg (fun o => (Option.map Prod.snd o).getD false) h
      simpa using h3

theorem lookupU_removeState_self (s : SentPacketManager) (k : Nat) :
    lookupU (removeState s k).unacked_packets k = none := by
  unfold removeState
  show lookupU ((eraseU s.unacked_packets k).map
    (fun p => (p.1, detachTI k p.2))) k = none
  rw [lookupU_mapVals, lookupU_erase_self]
  rfl

theorem lookupU_removeState_other (s : SentPacketManager) (k m : Nat)
    (h : m ≠ k) :
    lookupU (removeState s k).unacked_packets m =
      (lookupU s.unacked_packets m).map (detachTI k) := by
  unfold removeState
  show lookupU ((eraseU s.unacked_packets k).map
    (fun p => (p.1, detachTI k p.2))) m = _
  rw [lookupU_mapVals, lookupU_erase_other _ _ _ h]

theorem frameP_removeState_other (s : SentPacketManager) (k m : Nat)
    (h : m ≠ k) : frameP (removeState s k) m = frameP s m := by
  unfold frameP
  rw [lookupU_removeState_other s k m h]
  cases lookupU s.unacked_packets m <;> rfl

theorem frameP_setNotPending_other (s : SentPacketManager) (k m : Nat)
    (h : m ≠ k) : frameP (setNotPendingState s k) m = frameP s m := by
  unfold frameP setNotPendingState
  rw [lookupU_adjust_other _ _ _ _ h]

theorem frameP_neuter_other (s : SentPacketManager) (k m : Nat)
    (h : m ≠ k) : frameP (neuterState s k) m = frameP s m := by
  unfold frameP neuterState
  rw [lookupU_adjust_other _ _ _ _ h]

theorem frameP_onPacketAbandoned_other (s : SentPacketManager) (k m : Nat)
    (h : m ≠ k) : frameP (OnPacketAbandonedState s k) m = frameP s m := by
  unfold OnPacketAbandonedState
  split_ifs
  · exact frameP_setNotPending_other s k m h
  · rfl

/-- The group loop body never touches the queue except to erase `prev`. -/
theorem mphStep_queue (hc : Bool) (st : SentPacketManager) (prev : Nat) :
    (mphStep hc st prev).pending_retransmissions =
      qerase st.pending_retransmissions prev := by
  simp only [mphStep, OnPacketAbandonedState]
  split_ifs <;> rfl

/-- Group processing of a *different* member leaves the (frames, pending)
view and the queue entry of `m` untouched. -/
theorem mphStep_other (hc : Bool) (st : SentPacketManager) (prev m : Nat)
    (h : m ≠ prev) :
    frameP (mphStep hc st prev) m = frameP st m ∧
    qlookup (mphStep hc st prev).pending_retransmissions m =
      qlookup st.pending_retransmissions m := by
  constructor
  · simp only [mphStep]
    split_ifs with h1 h2 h2
    · rw [frameP_neuter_other _ _ _ h, frameP_setNotPending_other _ _ _ h,
        frameP_onPacketAbandoned_other _ _ _ h]
      rfl
    · rw [frameP_removeState_other _ _ _ h, frameP_setNotPending_other _ _ _ h,
        frameP_onPacketAbandoned_other _ _ _ h]
      rfl
    · rw [frameP_neuter_other _ _ _ h]
      rfl
    · rw [frameP_removeState_other _ _ _ h]
      rfl
  · rw [mphStep_queue]
    exact qlookup_erase_other _ prev m h

theorem isPendingS_setNotPending_self (s : SentPacketManager) (k : Nat) :
    IsPendingS (setNotPendingState s k) k = false := by
  unfold IsPendingS setNotPendingState
  rw [lookupU_adjust_self]
  cases lookupU s.unacked_packets k <;> rfl

theorem lookupU_neuter_self (s : SentPacketManager) (k : Nat) :
    lookupU (neuterState s k).unacked_packets k =
      (lookupU s.unacked_packets k).map
        (fun ti => { ti with retransmittable_frames := none }) := by
  unfold neuterState
  rw [lookupU_adjust_self]

theorem mphStep_false (st : SentPacketManager) (prev : Nat) :
    mphStep false st prev =
      (if IsPendingS st prev = true
       then neuterState { st with pending_retransmissions := qerase st.pending_retransmissions prev } prev
       else removeState { st with pending_retransmissions := qerase st.pending_retransmissions prev } prev) := rfl

theorem mphStep_true (st : SentPacketManager) (prev : Nat) :
    mphStep true st prev =
      (if IsPendingS (setNotPendingState (OnPacketAbandonedState
            { st with pending_retransmissions := qerase st.pending_retransmissions prev } prev) prev) prev = true
       then neuterState (setNotPendingState (OnPacketAbandonedState
            { st with pending_retransmissions := qerase st.pending_retransmissions prev } prev) prev) prev
       else removeState (setNotPendingState (OnPacketAbandonedState
            { st with pending_retransmissions := qerase st.pending_retransmissions prev } prev) prev) prev) := rfl

/-- What the group loop body does at its own key: the queue entry is gone;
the record is removed unless this is a non-crypto group and the record was
pending, in which case it is kept with its frames cleared. -/
theorem mphStep_self (hc : Bool) (st : SentPacketManager) (prev : Nat) :
    qlookup (mphStep hc st prev).pending_retransmissions prev = none ∧
    (if hc = false ∧ IsPendingS st prev = true
     then (lookupU (mphStep hc st prev).unacked_packets prev).map
         (fun x => x.retransmittable_frames) = some none
     else lookupU (mphStep hc st prev).unacked_packets prev = none) := by
  constructor
  · rw [mphStep_queue]
    exact qlookup_erase_self _ _
  · cases hc with
    | true =>
      rw [if_neg (by simp)]
      rw [mphStep_true,
        if_neg (by rw [isPendingS_setNotPending_self]; simp)]
      exact lookupU_removeState_self _ _
    | false =>
      by_cases hpend : IsPendingS st prev = true
      · rw [if_pos ⟨rfl, hpend⟩, mphStep_false, if_pos hpend,
          lookupU_neuter_self]
        show (Option.map _ (lookupU st.unacked_packets prev)).map _ = _
        unfold IsPendingS at hpend
        cases hl : lookupU st.unacked_packets prev with
        | none => rw [hl] at hpend; simp at hpend
        | some ti => rfl
      · rw [if_neg (fun hcon => hpend hcon.2), mphStep_false, if_neg hpend]
        exact lookupU_removeState_self _ _

theorem framesView_of_frameP (s s' : SentPacketManager) (m : Nat)
    (h : frameP s' m = frameP s m) :
    (lookupU s'.unacked_packets m).map (fun x => x.retransmittable_frames) =
    (lookupU s.unacked_packets m).map (fun x => x.retransmittable_frames) := by
  unfold frameP at h
  cases h1 : lookupU s'.unacked_packets m with
  | none =>
    cases h2 : lookupU s.unacked_packets m with
    | none => rfl
    | some ti => rw [h1, h2] at h; exact absurd h (by simp)
  | some ti' =>
    cases h2 : lookupU s.unacked_packets m with
    | none => rw [h1, h2] at h; exact absurd h (by simp)
    | some ti =>
      rw [h1, h2] at h
      have h3 := congrArg (fun o => Option.map Prod.fst o) h
      simpa using h3

theorem lookupNone_of_frameP (s s' : SentPacketManager) (m : Nat)
    (h : frameP s' m = frameP s m)
    (h2 : lookupU s.unacked_packets m = none) :
    lookupU s'.unacked_packets m = none := by
  unfold frameP at h
  rw [h2] at h
  cases h1 : lookupU s'.unacked_packets m with
  | none => rfl
  | some ti' => rw [h1] at h; exact absurd h (by simp)

/-- Folding the group loop over keys not containing `m` leaves `m`'s
(frames, pending) view and queue entry unchanged. -/
theorem mph_fold_other (hc : Bool) :
    ∀ (l : List Nat) (st : SentPacketManager) (m : Nat), m ∉ l →
    frameP (l.foldl (mphStep hc) st) m = frameP st m ∧
    qlookup (l.foldl (mphStep hc) st).pending_retransmissions m =
      qlookup st.pending_retransmissions m := by
  intro l
  induction l with
  | nil => intro st m h; exact ⟨rfl, rfl⟩
  | cons a rest ih =>
    intro st m h
    rw [List.foldl_cons]
    have hma : m ≠ a := fun he => h (he ▸ List.mem_cons_self a rest)
    have h2 := ih (mphStep hc st a) m (fun hm => h (List.mem_cons_of_mem a hm))
    have h3 := mphStep_other hc st a m hma
    exact ⟨h2.1.trans h3.1, h2.2.trans h3.2⟩

/-- Folding the group loop over a duplicate-free list: each member ends up
out of the queue, and out of the table unless this is a non-crypto group
and the member was pending at the fold's start, in which case its record
survives with frames cleared. -/
theorem mph_fold_at_mem (hc : Bool) :
    ∀ (l : List Nat) (st0 : SentPacketManager), l.Nodup → ∀ m ∈ l,
    qlookup (l.foldl (mphStep hc) st0).pending_retransmissions m = none ∧
    (if hc = false ∧ IsPendingS st0 m = true
     then (lookupU (l.foldl (mphStep hc) st0).unacked_packets m).map
         (fun x => x.retransmittable_frames) = some none
     else lookupU (l.foldl (mphStep hc) st0).unacked_packets m = none) := by
  intro l
  induction l with
  | nil => intro st0 hnd m hm; exact absurd hm (List.not_mem_nil m)
  | cons a rest ih =>
    intro st0 hnd m hm
    rw [List.nodup_cons] at hnd
    rw [List.foldl_cons]
    rcases List.mem_cons.mp hm with h1 | h1
    · subst h1
      have hself := mphStep_self hc st0 m
      have hpres := mph_fold_other hc rest (mphStep hc st0 m) m hnd.1
      constructor
      · rw [hpres.2, hself.1]
      · by_cases hcond : hc = false ∧ IsPendingS st0 m = true
        · rw [if_pos hcond]
          have hs := hself.2
          rw [if_pos hcond] at hs
          rw [framesView_of_frameP _ _ _ hpres.1]
          exact hs
        · rw [if_neg hcond]
          have hs := hself.2
          rw [if_neg hcond] at hs
          exact lookupNone_of_frameP _ _ _ hpres.1 hs
    · have hma : m ≠ a := fun he => hnd.1 (he ▸ h1)
      have hstep := mphStep_other hc st0 a m hma
      have hIH := ih (mphStep hc st0 a) hnd.2 m h1
      constructor
      · exact hIH.1
      · have hcondeq : IsPendingS (mphStep hc st0 a) m = IsPendingS st0 m :=
          isPendingS_eq_of_frameP _ _ _ hstep.1
        by_cases hcond : hc = false ∧ IsPendingS st0 m = true
        · rw [if_pos hcond]
          have h4 := hIH.2
          rw [if_pos ⟨hcond.1, by rw [hcondeq]; exact hcond.2⟩] at h4
          exact h4
        · rw [if_neg hcond]
          have h4 := hIH.2
          rw [if_neg (fun hcon =>
            hcond ⟨hcon.1, by rw [← hcondeq]; exact hcon.2⟩)] at h4
          exact h4

/-- The pre-loop state of `MarkPacketHandled` after the top pending check. -/
def mphS1 (s : SentPacketManager) (sn : Nat) (ti : TransmissionInfo) :
    SentPacketManager :=
  if ti.pending then setNotPendingState s sn else s

/-- ... after the spurious-retransmission statistics bump. -/
def mphS2 (s : SentPacketManager) (sn : Nat) (ti : TransmissionInfo) :
    SentPacketManager :=
  let s1 := mphS1 s sn ti
  if ti.all_transmissions.getLastD 0 ≠ sn then
    { s1 with stats_packets_spuriously_retransmitted := s1.stats_packets_spuriously_retransmitted + 1 }
  else s1

/-- ... after the crypto-count decrement: the state the group loop starts
from. -/
def mphS3 (s : SentPacketManager) (sn : Nat) (ti : TransmissionInfo) :
    SentPacketManager :=
  let s2 := mphS2 s sn ti
  if hasCryptoHandshakeAt s2 (ti.all_transmissions.getLastD 0) then
    { s2 with pending_crypto_packet_count := s2.pending_crypto_packet_count - 1 }
  else s2

theorem markPacketHandled_decomp (s : SentPacketManager) (sn : Nat)
    (rbp : Bool) (ti : TransmissionInfo)
    (h : lookupU s.unacked_packets sn = some ti) :
    MarkPacketHandled s sn rbp =
      ti.all_transmissions.reverse.foldl
        (mphStep (hasCryptoHandshakeAt (mphS2 s sn ti)
          (ti.all_transmissions.getLastD 0)))
        (mphS3 s sn ti) := by
  unfold MarkPacketHandled
  rw [h]
  rfl

theorem hasCryptoAt_setNotPending (s : SentPacketManager) (k n : Nat) :
    hasCryptoHandshakeAt (setNotPendingState s k) n = hasCryptoHandshakeAt s n := by
  unfold hasCryptoHandshakeAt setNotPendingState
  by_cases hnk : n = k
  · subst hnk
    rw [lookupU_adjust_self]
    cases lookupU s.unacked_packets n <;> rfl
  · rw [lookupU_adjust_other _ _ _ _ hnk]

theorem hasCryptoAt_mphS2 (s : SentPacketManager) (sn : Nat)
    (ti : TransmissionInfo) (n : Nat) :
    hasCryptoHandshakeAt (mphS2 s sn ti) n = hasCryptoHandshakeAt s n := by
  simp only [mphS2, mphS1]
  split_ifs <;> first
  | exact hasCryptoAt_setNotPending s sn n
  | rfl

theorem queue_mphS3 (s : SentPacketManager) (sn : Nat)
    (ti : TransmissionInfo) :
    (mphS3 s sn ti).pending_retransmissions = s.pending_retransmissions := by
  simp only [mphS3, mphS2, mphS1]
  split_ifs <;> rfl

theorem isPendingS_mphS3_self (s : SentPacketManager) (sn : Nat)
    (ti : TransmissionInfo) (h : lookupU s.unacked_packets sn = some ti) :
    IsPendingS (mphS3 s sn ti) sn = false := by
  have hbase : IsPendingS (mphS1 s sn ti) sn = false := by
    unfold mphS1
    by_cases hp : ti.pending
    · rw [if_pos hp]
      exact isPendingS_setNotPending_self s sn
    · rw [if_neg hp]
      unfold IsPendingS
      rw [h]
      simpa using hp
  simp only [mphS3, mphS2]
  split_ifs <;> exact hbase

theorem frameP_mphS3_other (s : SentPacketManager) (sn : Nat)
    (ti : TransmissionInfo) (m : Nat) (hm : m ≠ sn) :
    frameP (mphS3 s sn ti) m = frameP s m := by
  have hbase : frameP (mphS1 s sn ti) m = frameP s m := by
    unfold mphS1
    split_ifs
    · exact frameP_setNotPending_other s sn m hm
    · rfl
  simp only [mphS3, mphS2]
  split_ifs <;> exact hbase

/-- Part of C5, single-call form: after `mark_packet_handled(sn, ...)` on a
record whose (duplicate-free) group is `ti.all_transmissions`, every group
member is out of the pending-retransmission queue; each member's record is
removed from the table unless the group is non-crypto and the member was a
pending sibling (still in flight), in which case it is kept neutered
(frames cleared). -/
theorem markPacketHandled_group (s : SentPacketManager) (sn : Nat)
    (rbp : Bool) (ti : TransmissionInfo)
    (hlook : lookupU s.unacked_packets sn = some ti)
    (hnd : ti.all_transmissions.Nodup) :
    ∀ m ∈ ti.all_transmissions,
    qlookup (MarkPacketHandled s sn rbp).pending_retransmissions m = none ∧
    (if hasCryptoHandshakeAt s (ti.all_transmissions.getLastD 0) = false ∧
        m ≠ sn ∧ IsPendingS s m = true
     then (lookupU (MarkPacketHandled s sn rbp).unacked_packets m).map
         (fun x => x.retransmittable_frames) = some none
     else lookupU (MarkPacketHandled s sn rbp).unacked_packets m = none) := by
  intro m hm
  rw [markPacketHandled_decomp s sn rbp ti hlook, hasCryptoAt_mphS2]
  have hmrev : m ∈ ti.all_transmissions.reverse := List.mem_reverse.mpr hm
  have hndrev : ti.all_transmissions.reverse.Nodup := List.nodup_reverse.mpr hnd
  have hfold := mph_fold_at_mem
    (hasCryptoHandshakeAt s (ti.all_transmissions.getLastD 0))
    ti.all_transmissions.reverse (mphS3 s sn ti) hndrev m hmrev
  refine ⟨hfold.1, ?_⟩
  by_cases hmsn : m = sn
  · subst hmsn
    have hps3 : IsPendingS (mphS3 s m ti) m = false :=
      isPendingS_mphS3_self s m ti hlook
    rw [if_neg (by simp)]
    have h4 := hfold.2
    rw [if_neg (fun hcon => by
      have hx := hcon.2
      rw [hps3] at hx
      exact absurd hx (by simp))] at h4
    exact h4
  · have hfp : frameP (mphS3 s sn ti) m = frameP s m :=
      frameP_mphS3_other s sn ti m hmsn
    have hpeq : IsPendingS (mphS3 s sn ti) m = IsPendingS s m :=
      isPendingS_eq_of_frameP _ _ _ hfp
    by_cases hcond : hasCryptoHandshakeAt s
        (ti.all_transmissions.getLastD 0) = false ∧ IsPendingS s m = true
    · rw [if_pos ⟨hcond.1, hmsn, hcond.2⟩]
      have h4 := hfold.2
      rw [if_pos ⟨hcond.1, by rw [hpeq]; exact hcond.2⟩] at h4
      exact h4
    · rw [if_neg (fun hcon => hcond ⟨hcon.1, hcon.2.2⟩)]
      have h4 := hfold.2
      rw [if_neg (fun hcon =>
        hcond ⟨hcon.1, by rw [← hpeq]; exact hcon.2⟩)] at h4
      exact h4

/-- The SN is fully gone: no table record and no queue entry. -/
def SnGone (sn : Nat) (s : SentPacketManager) : Prop :=
  lookupU s.unacked_packets sn = none ∧
  qlookup s.pending_retransmissions sn = none

theorem qlookup_qerase_none (l : List (Nat × TransmissionType)) (k sn : Nat)
    (h : qlookup l sn = none) : qlookup (qerase l k) sn = none := by
  by_cases hk : sn = k
  · subst hk
    exact qlookup_erase_self l sn
  · rw [qlookup_erase_other l k sn hk]
    exact h

theorem lookupU_adjust_none (l : List (Nat × TransmissionInfo)) (k : Nat)
    (f : TransmissionInfo → TransmissionInfo) (sn : Nat)
    (h : lookupU l sn = none) : lookupU (adjustU l k f) sn = none := by
  by_cases hk : sn = k
  · subst hk
    rw [lookupU_adjust_self, h]
    rfl
  · rw [lookupU_adjust_other _ _ _ _ hk]
    exact h

theorem tableNone_setNotPending (s : SentPacketManager) (k sn : Nat)
    (h : lookupU s.unacked_packets sn = none) :
    lookupU (setNotPendingState s k).unacked_packets sn = none := by
  unfold setNotPendingState
  show lookupU (adjustU s.unacked_packets k
    (fun ti => { ti with pending := false })) sn = none
  exact lookupU_adjust_none _ _ _ _ h

theorem tableNone_neuter (s : SentPacketManager) (k sn : Nat)
    (h : lookupU s.unacked_packets sn = none) :
    lookupU (neuterState s k).unacked_packets sn = none := by
  unfold neuterState
  show lookupU (adjustU s.unacked_packets k
    (fun ti => { ti with retransmittable_frames := none })) sn = none
  exact lookupU_adjust_none _ _ _ _ h

theorem tableNone_removeState (s : SentPacketManager) (k sn : Nat)
    (h : lookupU s.unacked_packets sn = none) :
    lookupU (removeState s k).unacked_packets sn = none := by
  by_cases hk : sn = k
  · subst hk
    exact lookupU_removeState_self s sn
  · rw [lookupU_removeState_other s k sn hk, h]
    rfl

theorem tableNone_onPacketAbandoned (s : SentPacketManager) (k sn : Nat)
    (h : lookupU s.unacked_packets sn = none) :
    lookupU (OnPacketAbandonedState s k).unacked_packets sn = none := by
  unfold OnPacketAbandonedState
  split_ifs
  · exact tableNone_setNotPending s k sn h
  · exact h

theorem snGone_mphStep (sn : Nat) (hc : Bool) (st : SentPacketManager)
    (prev : Nat) (h : SnGone sn st) : SnGone sn (mphStep hc st prev) := by
  constructor
  · simp only [mphStep]
    split_ifs
    · exact tableNone_neuter _ _ _ (tableNone_setNotPending _ _ _
        (tableNone_onPacketAbandoned _ _ _ h.1))
    · exact tableNone_removeState _ _ _ (tableNone_setNotPending _ _ _
        (tableNone_onPacketAbandoned _ _ _ h.1))
    · exact tableNone_neuter _ _ _ h.1
    · exact tableNone_removeState _ _ _ h.1
  · rw [mphStep_queue]
    exact qlookup_qerase_none _ _ _ h.2

theorem lookupU_isSome_setNotPending (s : SentPacketManager) (k m : Nat) :
    (lookupU (setNotPendingState s k).unacked_packets m).isSome =
    (lookupU s.unacked_packets m).isSome := by
  unfold setNotPendingState
  by_cases hm : m = k
  · subst hm
    rw [lookupU_adjust_self]
    cases lookupU s.unacked_packets m <;> rfl
  · rw [lookupU_adjust_other _ _ _ _ hm]

theorem lookupU_isSome_mphS3 (s : SentPacketManager) (sn : Nat)
    (ti : TransmissionInfo) (m : Nat) :
    (lookupU (mphS3 s sn ti).unacked_packets m).isSome =
    (lookupU s.unacked_packets m).isSome := by
  simp only [mphS3, mphS2, mphS1]
  split_ifs <;> first
  | exact lookupU_isSome_setNotPending s sn m
  | rfl

theorem snGone_mphS3 (sn : Nat) (s : SentPacketManager) (k : Nat)
    (ti : TransmissionInfo) (h : SnGone sn s) : SnGone sn (mphS3 s k ti) := by
  constructor
  · have h2 := lookupU_isSome_mphS3 s k ti sn
    rw [h.1] at h2
    cases hl : lookupU (mphS3 s k ti).unacked_packets sn with
    | none => rfl
    | some x => rw [hl] at h2; simp at h2
  · rw [queue_mphS3]
    exact h.2

theorem snGone_markPacketHandled (sn : Nat) (s : SentPacketManager)
    (k : Nat) (rbp : Bool) (h : SnGone sn s) :
    SnGone sn (MarkPacketHandled s k rbp) := by
  cases hl : lookupU s.unacked_packets k with
  | none =>
    rw [markPacketHandled_none s k rbp hl]
    exact h
  | some ti =>
    rw [markPacketHandled_decomp s k rbp ti hl]
    exact foldl_preserves (SnGone sn) _
      (fun st a hst => snGone_mphStep sn _ st a hst) _ _
      (snGone_mphS3 sn s k ti h)

theorem snGone_handleAckLoop (sn : Nat) (fuel : Nat)
    (info : ReceivedPacketInfo) :
    ∀ (cursor : Nat) (s : SentPacketManager), SnGone sn s →
    SnGone sn (handleAckLoop fuel info cursor s) := by
  induction fuel with
  | zero => intro cursor s h; exact h
  | succ n ih =>
    intro cursor s h
    unfold handleAckLoop
    cases hk : firstKeyGE s.unacked_packets cursor with
    | none => exact h
    | some k =>
      simp only [hk]
      split_ifs with h1 h2
      · exact h
      · exact ih (k + 1) s h
      · exact ih k _ (snGone_markPacketHandled sn s k true h)

theorem snGone_revivedFold (sn : Nat) (revived : List Nat) :
    ∀ (st : SentPacketManager), SnGone sn st →
    SnGone sn (revived.foldl (fun st r =>
      if IsUnackedS st r then
        if IsPendingS st r then neuterState st r else removeState st r
      else st) st) := by
  intro st h
  refine foldl_preserves (SnGone sn) _ (fun x a hx => ?_) _ _ h
  split_ifs
  · exact ⟨tableNone_neuter _ _ _ hx.1, hx.2⟩
  · exact ⟨tableNone_removeState _ _ _ hx.1, hx.2⟩
  · exact hx

theorem snGone_clearLoop (sn : Nat) (keys : List Nat) :
    ∀ (k : Nat) (s : SentPacketManager), SnGone sn s →
    SnGone sn (clearLoop keys k s) := by
  induction keys with
  | nil => intro k s h; exact h
  | cons a rest ih =>
    intro k s h
    unfold clearLoop
    by_cases h1 : k = 0
    · rw [if_pos h1]
      exact h
    · rw [if_neg h1]
      cases hl : lookupU s.unacked_packets a with
      | none => exact ih k s h
      | some ti =>
        simp only [hl]
        split_ifs with h2
        · exact ih (k - 1) _ ⟨tableNone_removeState _ _ _ h.1, h.2⟩
        · exact ih k s h

theorem keys_map_keyfix (l : List (Nat × TransmissionInfo))
    (g : Nat × TransmissionInfo → Nat × TransmissionInfo)
    (hg : ∀ p, (g p).1 = p.1) :
    (l.map g).map Prod.fst = l.map Prod.fst := by
  rw [List.map_map]
  exact List.map_congr_left (fun x hx => hg x)

theorem lookupU_none_of_keys (l l' : List (Nat × TransmissionInfo)) (sn : Nat)
    (hk : l'.map Prod.fst = l.map Prod.fst)
    (h : lookupU l sn = none) : lookupU l' sn = none := by
  rw [lookupU_eq_none_iff] at h ⊢
  rw [hk]
  exact h

theorem isPendingS_neuter (s : SentPacketManager) (k m : Nat) :
    IsPendingS (neuterState s k) m = IsPendingS s m := by
  unfold IsPendingS neuterState
  by_cases hm : m = k
  · subst hm
    rw [lookupU_adjust_self]
    cases lookupU s.unacked_packets m <;> rfl
  · rw [lookupU_adjust_other _ _ _ _ hm]

theorem isPendingS_removeState_self (s : SentPacketManager) (k : Nat) :
    IsPendingS (removeState s k) k = false := by
  unfold IsPendingS
  rw [lookupU_removeState_self]

/-- A sequence number that is not in flight stays that way through any
group-loop step (including a step on itself, which removes it). -/
theorem isPendingS_mphStep_false (hc : Bool) (st : SentPacketManager)
    (prev m : Nat) (h : IsPendingS st m = false) :
    IsPendingS (mphStep hc st prev) m = false := by
  by_cases hm : m = prev
  · subst hm
    cases hc with
    | true =>
      rw [mphStep_true]
      split_ifs
      · rw [isPendingS_neuter]
        exact isPendingS_setNotPending_self _ _
      · exact isPendingS_removeState_self _ _
    | false =>
      rw [mphStep_false, if_neg (by simp [h])]
      exact isPendingS_removeState_self _ _
  · rw [isPendingS_eq_of_frameP _ _ _ (mphStep_other hc st prev m hm).1]
    exact h

/-- Processing a member that is not in flight removes it for good. -/
theorem mphStep_gone_self (hc : Bool) (st : SentPacketManager) (sn : Nat)
    (h : IsPendingS st sn = false) : SnGone sn (mphStep hc st sn) := by
  constructor
  · cases hc with
    | true =>
      rw [mphStep_true,
        if_neg (by rw [isPendingS_setNotPending_self]; simp)]
      exact lookupU_removeState_self _ _
    | false =>
      rw [mphStep_false, if_neg (by simp [h])]
      exact lookupU_removeState_self _ _
  · rw [mphStep_queue]
    exact qlookup_erase_self _ _

theorem mph_fold_gone (hc : Bool) (sn : Nat) :
    ∀ (l : List Nat) (st : SentPacketManager),
    IsPendingS st sn = false → sn ∈ l →
    SnGone sn (l.foldl (mphStep hc) st) := by
  intro l
  induction l with
  | nil => intro st _ hm; exact absurd hm (List.not_mem_nil sn)
  | cons a rest ih =>
    intro st hpend hm
    rw [List.foldl_cons]
    by_cases ha : sn = a
    · subst ha
      exact foldl_preserves (SnGone sn) _
        (fun x b hx => snGone_mphStep sn hc x b hx) rest _
        (mphStep_gone_self hc st sn hpend)
    · have hm2 : sn ∈ rest := by
        rcases List.mem_cons.mp hm with h1 | h1
        · exact absurd h1 ha
        · exact h1
      exact ih (mphStep hc st a)
        (isPendingS_mphStep_false hc st a sn hpend) hm2

/-- `mark_packet_handled(sn)` removes `sn` itself from both the table and
the pending-retransmission queue (the group invariant supplies
`sn ∈ all_transmissions`). -/
theorem markPacketHandled_self_gone (s : SentPacketManager) (sn : Nat)
    (rbp : Bool) (ti : TransmissionInfo)
    (hlook : lookupU s.unacked_packets sn = some ti)
    (hself : sn ∈ ti.all_transmissions) :
    SnGone sn (MarkPacketHandled s sn rbp) := by
  rw [markPacketHandled_decomp s sn rbp ti hlook]
  exact mph_fold_gone _ sn _ _ (isPendingS_mphS3_self s sn ti hlook)
    (List.mem_reverse.mpr hself)

/-- Whenever a `MarkPacketHandled` call ends with `sn` out of the table, it
also ends with `sn` out of the queue (given the implication held before the
call). -/
theorem markPacketHandled_tableNone_imp_queueNone (s : SentPacketManager)
    (k : Nat) (rbp : Bool) (sn : Nat)
    (hP : lookupU s.unacked_packets sn = none →
      qlookup s.pending_retransmissions sn = none) :
    lookupU (MarkPacketHandled s k rbp).unacked_packets sn = none →
    qlookup (MarkPacketHandled s k rbp).pending_retransmissions sn = none := by
  cases hl : lookupU s.unacked_packets k with
  | none =>
    rw [markPacketHandled_none s k rbp hl]
    exact hP
  | some ti =>
    rw [markPacketHandled_decomp s k rbp ti hl]
    refine foldl_preserves (fun st =>
      lookupU st.unacked_packets sn = none →
        qlookup st.pending_retransmissions sn = none) _
      (fun st a hst => ?_) _ _ ?_
    · by_cases ha : a = sn
      · subst ha
        intro _
        rw [mphStep_queue]
        exact qlookup_erase_self _ _
      · intro hnone
        have hfp := mphStep_other (hasCryptoHandshakeAt (mphS2 s k ti)
          (ti.all_transmissions.getLastD 0)) st a sn (fun he => ha he.symm)
        rw [hfp.2]
        exact hst (lookupNone_of_frameP _ st sn hfp.1.symm hnone)
    · intro hnone
      rw [queue_mphS3]
      apply hP
      have h2 := lookupU_isSome_mphS3 s k ti sn
      rw [hnone] at h2
      cases hl2 : lookupU s.unacked_packets sn with
      | none => rfl
      | some x => rw [hl2] at h2; simp at h2

/-! Measure and key-set machinery for the ack sweep. -/

/-- Number of table keys at or above the cursor — the loop measure. -/
def countKeysGE (l : List (Nat × TransmissionInfo)) (c : Nat) : Nat :=
  ((l.map Prod.fst).filter (fun x => c ≤ x)).length

theorem filter_length_lt {α : Type} (l : List α) (q r : α → Bool)
    (hqr : ∀ x, q x = true → r x = true) (x : α) (hx : x ∈ l)
    (hrx : r x = true) (hqx : q x = false) :
    (l.filter q).length < (l.filter r).length := by
  induction l with
  | nil => exact absurd hx (List.not_mem_nil x)
  | cons y rest ih =>
    by_cases hy : q y = true
    · have hry := hqr y hy
      rw [List.filter_cons_of_pos hy, List.filter_cons_of_pos hry]
      simp only [List.length_cons]
      have hxy : x ≠ y := fun he => by
        rw [he] at hqx
        rw [hqx] at hy
        exact Bool.noConfusion hy
      have hxr : x ∈ rest := by
        rcases List.mem_cons.mp hx with h1 | h1
        · exact absurd h1 hxy
        · exact h1
      exact Nat.succ_lt_succ (ih hxr)
    · have hyq : q y = false := by
        cases hq2 : q y with
        | false => rfl
        | true => exact absurd hq2 hy
      rw [List.filter_cons_of_neg (by rw [hyq]; simp)]
      by_cases hry : r y = true
      · rw [List.filter_cons_of_pos hry]
        simp only [List.length_cons]
        have hmono := (List.monotone_filter_right rest
          (fun a ha => hqr a ha)).length_le
        rcases List.mem_cons.mp hx with h1 | h1
        · omega
        · exact Nat.lt_succ_of_lt (ih h1)
      · have hryf : r y = false := by
          cases hr2 : r y with
          | false => rfl
          | true => exact absurd hr2 hry
        rw [List.filter_cons_of_neg (by rw [hryf]; simp)]
        have hxy : x ≠ y := fun he => by
          rw [he] at hrx
          rw [hrx] at hryf
          cases hryf
        have hxr : x ∈ rest := by
          rcases List.mem_cons.mp hx with h1 | h1
          · exact absurd h1 hxy
          · exact h1
        exact ih hxr

theorem keys_adjustU (l : List (Nat × TransmissionInfo)) (k : Nat)
    (f : TransmissionInfo → TransmissionInfo) :
    (adjustU l k f).map Prod.fst = l.map Prod.fst := by
  unfold adjustU
  refine keys_map_keyfix l _ (fun p => ?_)
  by_cases h : p.1 = k <;> simp [h]

theorem keys_eraseU (l : List (Nat × TransmissionInfo)) (k : Nat) :
    (eraseU l k).map Prod.fst = (l.map Prod.fst).filter (fun x => x ≠ k) := by
  induction l with
  | nil => rfl
  | cons p rest ih =>
    rw [eraseU_cons]
    by_cases h : p.1 = k
    · rw [if_pos h, List.map_cons, List.filter_cons_of_neg (by simp [h]), ih]
    · rw [if_neg h, List.map_cons, List.map_cons,
        List.filter_cons_of_pos (by simp [h]), ih]

theorem keys_removeState (s : SentPacketManager) (k : Nat) :
    (removeState s k).unacked_packets.map Prod.fst =
      (s.unacked_packets.map Prod.fst).filter (fun x => x ≠ k) := by
  unfold removeState
  show ((eraseU s.unacked_packets k).map
    (fun p => (p.1, detachTI k p.2))).map Prod.fst = _
  rw [keys_map_keyfix (eraseU s.unacked_packets k)
    (fun p => (p.1, detachTI k p.2)) (fun p => rfl), keys_eraseU]

theorem keys_setNotPending (s : SentPacketManager) (k : Nat) :
    (setNotPendingState s k).unacked_packets.map Prod.fst =
      s.unacked_packets.map Prod.fst := by
  unfold setNotPendingState
  show (adjustU s.unacked_packets k
    (fun ti => { ti with pending := false })).map Prod.fst = _
  exact keys_adjustU _ _ _

theorem keys_neuter (s : SentPacketManager) (k : Nat) :
    (neuterState s k).unacked_packets.map Prod.fst =
      s.unacked_packets.map Prod.fst := by
  unfold neuterState
  show (adjustU s.unacked_packets k
    (fun ti => { ti with retransmittable_frames := none })).map Prod.fst = _
  exact keys_adjustU _ _ _

theorem keys_onPacketAbandoned (s : SentPacketManager) (k : Nat) :
    (OnPacketAbandonedState s k).unacked_packets.map Prod.fst =
      s.unacked_packets.map Prod.fst := by
  unfold OnPacketAbandonedState
  split_ifs
  · exact keys_setNotPending s k
  · rfl

theorem keys_sublist_mphStep (hc : Bool) (st : SentPacketManager)
    (prev : Nat) :
    List.Sublist ((mphStep hc st prev).unacked_packets.map Prod.fst)
      (st.unacked_packets.map Prod.fst) := by
  simp only [mphStep]
  split_ifs
  · rw [keys_neuter, keys_setNotPending, keys_onPacketAbandoned]
  · rw [keys_removeState, keys_setNotPending, keys_onPacketAbandoned]
    exact List.filter_sublist _
  · rw [keys_neuter]
  · rw [keys_removeState]
    exact List.filter_sublist _

theorem keys_sublist_mphFold (hc : Bool) :
    ∀ (l : List Nat) (st : SentPacketManager),
    List.Sublist ((l.foldl (mphStep hc) st).unacked_packets.map Prod.fst)
      (st.unacked_packets.map Prod.fst) := by
  intro l
  induction l with
  | nil => intro st; exact List.Sublist.refl _
  | cons a rest ih =>
    intro st
    rw [List.foldl_cons]
    exact (ih (mphStep hc st a)).trans (keys_sublist_mphStep hc st a)

theorem keys_mphS3 (s : SentPacketManager) (sn : Nat)
    (ti : TransmissionInfo) :
    (mphS3 s sn ti).unacked_packets.map Prod.fst =
      s.unacked_packets.map Prod.fst := by
  simp only [mphS3, mphS2, mphS1]
  split_ifs <;> first
  | exact keys_setNotPending s sn
  | rfl

theorem keys_sublist_markPacketHandled (s : SentPacketManager) (k : Nat)
    (rbp : Bool) :
    List.Sublist ((MarkPacketHandled s k rbp).unacked_packets.map Prod.fst)
      (s.unacked_packets.map Prod.fst) := by
  cases hl : lookupU s.unacked_packets k with
  | none =>
    rw [markPacketHandled_none s k rbp hl]
  | some ti =>
    rw [markPacketHandled_decomp s k rbp ti hl]
    have h1 := keys_sublist_mphFold
      (hasCryptoHandshakeAt (mphS2 s k ti) (ti.all_transmissions.getLastD 0))
      ti.all_transmissions.reverse (mphS3 s k ti)
    rw [keys_mphS3] at h1
    exact h1

/-! Sorted-keys and group-self-membership invariants, preserved by the
sweep. -/

/-- The table is in strictly ascending key order, as a `std::map` is. -/
def SortedKeys (s : SentPacketManager) : Prop :=
  s.unacked_packets.Pairwise (fun a b => a.1 < b.1)

/-- Spec invariant 2: every record's group contains that record's SN. -/
def Inv2T (l : List (Nat × TransmissionInfo)) : Prop :=
  ∀ k tk, lookupU l k = some tk → k ∈ tk.all_transmissions

theorem sorted_map_keyfix (l : List (Nat × TransmissionInfo))
    (g : Nat × TransmissionInfo → Nat × TransmissionInfo)
    (hg : ∀ p, (g p).1 = p.1)
    (h : l.Pairwise (fun a b => a.1 < b.1)) :
    (l.map g).Pairwise (fun a b => a.1 < b.1) := by
  rw [List.pairwise_map]
  exact h.imp (fun hab => by rw [hg, hg]; exact hab)

theorem sorted_adjustU (l : List (Nat × TransmissionInfo)) (k : Nat)
    (f : TransmissionInfo → TransmissionInfo)
    (h : l.Pairwise (fun a b => a.1 < b.1)) :
    (adjustU l k f).Pairwise (fun a b => a.1 < b.1) := by
  unfold adjustU
  refine sorted_map_keyfix l _ (fun p => ?_) h
  by_cases hp : p.1 = k <;> simp [hp]

theorem sorted_removeU (l : List (Nat × TransmissionInfo)) (k : Nat)
    (h : l.Pairwise (fun a b => a.1 < b.1)) :
    ((eraseU l k).map (fun p => (p.1, detachTI k p.2))).Pairwise
      (fun a b => a.1 < b.1) := by
  refine sorted_map_keyfix _ _ (fun p => rfl) ?_
  exact List.Pairwise.sublist (List.filter_sublist l) h

theorem sortedKeys_mphStep (hc : Bool) (st : SentPacketManager) (prev : Nat)
    (h : SortedKeys st) : SortedKeys (mphStep hc st prev) := by
  unfold SortedKeys at h ⊢
  simp only [mphStep, OnPacketAbandonedState, neuterState, removeState,
    setNotPendingState]
  split_ifs <;> (try dsimp only) <;>
    first
    | exact sorted_adjustU _ _ _ (sorted_adjustU _ _ _ (sorted_adjustU _ _ _ h))
    | exact sorted_adjustU _ _ _ (sorted_adjustU _ _ _ h)
    | exact sorted_adjustU _ _ _ h
    | exact sorted_removeU _ _ (sorted_adjustU _ _ _ (sorted_adjustU _ _ _ h))
    | exact sorted_removeU _ _ (sorted_adjustU _ _ _ h)
    | exact sorted_removeU _ _ h
    | exact h

theorem sortedKeys_mphFold (hc : Bool) :
    ∀ (l : List Nat) (st : SentPacketManager), SortedKeys st →
    SortedKeys (l.foldl (mphStep hc) st) := by
  intro l
  induction l with
  | nil => intro st h; exact h
  | cons a rest ih =>
    intro st h
    rw [List.foldl_cons]
    exact ih _ (sortedKeys_mphStep hc st a h)

theorem sortedKeys_mphS3 (s : SentPacketManager) (sn : Nat)
    (ti : TransmissionInfo) (h : SortedKeys s) :
    SortedKeys (mphS3 s sn ti) := by
  unfold SortedKeys at h ⊢
  simp only [mphS3, mphS2, mphS1, setNotPendingState]
  split_ifs <;> (try dsimp only) <;>
    first
    | exact sorted_adjustU _ _ _ h
    | exact h

theorem sortedKeys_markPacketHandled (s : SentPacketManager) (k : Nat)
    (rbp : Bool) (h : SortedKeys s) :
    SortedKeys (MarkPacketHandled s k rbp) := by
  cases hl : lookupU s.unacked_packets k with
  | none =>
    rw [markPacketHandled_none s k rbp hl]
    exact h
  | some ti =>
    rw [markPacketHandled_decomp s k rbp ti hl]
    exact sortedKeys_mphFold _ _ _ (sortedKeys_mphS3 s k ti h)

theorem inv2T_adjust (l : List (Nat × TransmissionInfo)) (k : Nat)
    (f : TransmissionInfo → TransmissionInfo)
    (hf : ∀ ti, (f ti).all_transmissions = ti.all_transmissions)
    (h : Inv2T l) : Inv2T (adjustU l k f) := by
  intro m tm hm
  by_cases hmk : m = k
  · subst hmk
    rw [lookupU_adjust_self] at hm
    cases hl : lookupU l m with
    | none => rw [hl] at hm; exact absurd hm (by simp)
    | some ti =>
      rw [hl] at hm
      have h2 : f ti = tm := by simpa using hm
      rw [← h2, hf]
      exact h m ti hl
  · rw [lookupU_adjust_other _ _ _ _ hmk] at hm
    exact h m tm hm

theorem inv2T_removeTable (l : List (Nat × TransmissionInfo)) (r : Nat)
    (h : Inv2T l) :
    Inv2T ((eraseU l r).map (fun p => (p.1, detachTI r p.2))) := by
  intro m tm hm
  rw [lookupU_mapVals] at hm
  by_cases hmr : m = r
  · subst hmr
    rw [lookupU_erase_self] at hm
    exact absurd hm (by simp)
  · rw [lookupU_erase_other _ _ _ hmr] at hm
    cases hl : lookupU l m with
    | none => rw [hl] at hm; exact absurd hm (by simp)
    | some ti =>
      rw [hl] at hm
      have h2 : detachTI r ti = tm := by simpa using hm
      rw [← h2]
      unfold detachTI
      simp only [List.mem_filter]
      exact ⟨h m ti hl, by simpa using hmr⟩

theorem inv2T_mphStep (hc : Bool) (st : SentPacketManager) (prev : Nat)
    (h : Inv2T st.unacked_packets) :
    Inv2T (mphStep hc st prev).unacked_packets := by
  simp only [mphStep, OnPacketAbandonedState, neuterState, removeState,
    setNotPendingState]
  split_ifs <;> (try dsimp only) <;>
    first
    | exact inv2T_adjust _ _ _ (fun ti => rfl)
        (inv2T_adjust _ _ _ (fun ti => rfl)
          (inv2T_adjust _ _ _ (fun ti => rfl) h))
    | exact inv2T_adjust _ _ _ (fun ti => rfl)
        (inv2T_adjust _ _ _ (fun ti => rfl) h)
    | exact inv2T_adjust _ _ _ (fun ti => rfl) h
    | exact inv2T_removeTable _ _
        (inv2T_adjust _ _ _ (fun ti => rfl)
          (inv2T_adjust _ _ _ (fun ti => rfl) h))
    | exact inv2T_removeTable _ _
        (inv2T_adjust _ _ _ (fun ti => rfl) h)
    | exact inv2T_removeTable _ _ h
    | exact h

theorem inv2T_mphFold (hc : Bool) :
    ∀ (l : List Nat) (st : SentPacketManager), Inv2T st.unacked_packets →
    Inv2T (l.foldl (mphStep hc) st).unacked_packets := by
  intro l
  induction l with
  | nil => intro st h; exact h
  | cons a rest ih =>
    intro st h
    rw [List.foldl_cons]
    exact ih _ (inv2T_mphStep hc st a h)

theorem inv2T_mphS3 (s : SentPacketManager) (sn : Nat)
    (ti : TransmissionInfo) (h : Inv2T s.unacked_packets) :
    Inv2T (mphS3 s sn ti).unacked_packets := by
  simp only [mphS3, mphS2, mphS1, setNotPendingState]
  split_ifs <;> (try dsimp only) <;>
    first
    | exact inv2T_adjust _ _ _ (fun ti => rfl) h
    | exact h

theorem inv2T_markPacketHandled (s : SentPacketManager) (k : Nat)
    (rbp : Bool) (h : Inv2T s.unacked_packets) :
    Inv2T (MarkPacketHandled s k rbp).unacked_packets := by
  cases hl : lookupU s.unacked_packets k with
  | none =>
    rw [markPacketHandled_none s k rbp hl]
    exact h
  | some ti =>
    rw [markPacketHandled_decomp s k rbp ti hl]
    exact inv2T_mphFold _ _ _ (inv2T_mphS3 s k ti h)

/-! Resumption-iterator facts and the measure bounds for the ack sweep. -/

theorem firstKeyGE_none_lookup (l : List (Nat × TransmissionInfo))
    (c sn : Nat) (h : firstKeyGE l c = none) (hc : c ≤ sn) :
    lookupU l sn = none := by
  unfold firstKeyGE at h
  have hfind : l.find? (fun p => c ≤ p.1) = none := by
    cases hf : l.find? (fun p => c ≤ p.1) with
    | none => rfl
    | some p => rw [hf] at h; exact absurd h (by simp)
  cases hl : lookupU l sn with
  | none => rfl
  | some ti =>
    have hmem := mem_of_lookupU l sn ti hl
    have := List.find?_eq_none.mp hfind (sn, ti) hmem
    exact absurd (decide_eq_true hc) (by simpa using this)

theorem firstKeyGE_mem (l : List (Nat × TransmissionInfo)) (c k : Nat)
    (h : firstKeyGE l c = some k) : k ∈ l.map Prod.fst ∧ c ≤ k := by
  unfold firstKeyGE at h
  cases hf : l.find? (fun p => c ≤ p.1) with
  | none => rw [hf] at h; exact absurd h (by simp)
  | some p =>
    rw [hf] at h
    have hk : p.1 = k := by simpa using h
    have hmem := List.mem_of_find?_eq_some hf
    have hpred := List.find?_some hf
    constructor
    · rw [← hk]
      exact List.mem_map_of_mem Prod.fst hmem
    · rw [← hk]
      simpa using hpred

theorem firstKeyGE_min_sorted (c k : Nat) :
    ∀ (l : List (Nat × TransmissionInfo)),
    l.Pairwise (fun a b => a.1 < b.1) →
    firstKeyGE l c = some k →
    ∀ m ∈ l.map Prod.fst, c ≤ m → k ≤ m := by
  intro l
  induction l with
  | nil => intro _ h; exact absurd h (by simp [firstKeyGE])
  | cons p rest ih =>
    intro hsort h m hm hcm
    by_cases hp : c ≤ p.1
    · have hpz : (fun q : Nat × TransmissionInfo => decide (c ≤ q.1)) p =
          true := decide_eq_true hp
      have h2 : firstKeyGE (p :: rest) c = some p.1 := by
        unfold firstKeyGE
        rw [List.find?_cons_of_pos rest hpz]
        rfl
      have hk : k = p.1 := by
        rw [h] at h2
        simpa using h2
      rw [List.map_cons] at hm
      rcases List.mem_cons.mp hm with h1 | h1
      · rw [hk, h1]
      · rcases List.mem_map.mp h1 with ⟨q, hq, hq1⟩
        have := (List.pairwise_cons.mp hsort).1 q hq
        rw [hk]
        omega
    · have hpz : ¬ (fun q : Nat × TransmissionInfo => decide (c ≤ q.1)) p =
          true := by simpa using hp
      have h2 : firstKeyGE rest c = some k := by
        unfold firstKeyGE at h ⊢
        rw [List.find?_cons_of_neg rest hpz] at h
        exact h
      rw [List.map_cons] at hm
      rcases List.mem_cons.mp hm with h1 | h1
      · rw [h1] at hcm
        exact absurd hcm hp
      · exact ih (List.pairwise_cons.mp hsort).2 h2 m h1 hcm

theorem countKeysGE_init (l : List (Nat × TransmissionInfo)) :
    countKeysGE l 0 < l.length + 1 := by
  unfold countKeysGE
  have h1 := List.length_filter_le (fun x => decide (0 ≤ x)) (l.map Prod.fst)
  rw [List.length_map] at h1
  omega

theorem countKeysGE_skip_lt (l : List (Nat × TransmissionInfo)) (k c : Nat)
    (hk : k ∈ l.map Prod.fst) (hc : c ≤ k) :
    countKeysGE l (k + 1) < countKeysGE l c := by
  unfold countKeysGE
  refine filter_length_lt (l.map Prod.fst) _ _ (fun x hx => ?_) k hk
    (decide_eq_true hc) (decide_eq_false (by omega))
  have := of_decide_eq_true hx
  exact decide_eq_true (by omega)

theorem countKeysGE_handled_lt (l' l : List (Nat × TransmissionInfo))
    (k c : Nat)
    (hsub : List.Sublist (l'.map Prod.fst) (l.map Prod.fst))
    (hnone : lookupU l' k = none)
    (hk : k ∈ l.map Prod.fst) (hc : c ≤ k) :
    countKeysGE l' k < countKeysGE l c := by
  have hnotmem : k ∉ l'.map Prod.fst := (lookupU_eq_none_iff l' k).mp hnone
  unfold countKeysGE
  have h1 : (l'.map Prod.fst).filter (fun x => decide (k ≤ x)) =
      (l'.map Prod.fst).filter (fun x => decide (k + 1 ≤ x)) := by
    refine List.filter_congr (fun x hx => ?_)
    have hne : x ≠ k := fun he => hnotmem (he ▸ hx)
    by_cases h2 : k + 1 ≤ x
    · rw [decide_eq_true (by omega : k ≤ x), decide_eq_true h2]
    · rw [decide_eq_false (by omega : ¬ k ≤ x), decide_eq_false h2]
  have h2 : ((l'.map Prod.fst).filter (fun x => decide (k + 1 ≤ x))).length ≤
      ((l.map Prod.fst).filter (fun x => decide (k + 1 ≤ x))).length :=
    (hsub.filter _).length_le
  have h3 : ((l.map Prod.fst).filter (fun x => decide (k + 1 ≤ x))).length <
      ((l.map Prod.fst).filter (fun x => decide (c ≤ x))).length := by
    refine filter_length_lt (l.map Prod.fst) _ _ (fun x hx => ?_) k hk
      (decide_eq_true hc) (decide_eq_false (by omega))
    have := of_decide_eq_true hx
    exact decide_eq_true (by omega)
  rw [h1]
  omega

/-- The ack sweep disposes of every SN it acks: if `sn` is unacked on entry,
is at or below `largest_observed`, and is not still awaited by the peer, the
loop reaches it and `MarkPacketHandled` removes it from the
pending-retransmission queue (and the table entry, if any survives the group
walk, has lost the race forever: we prove full disposal `SnGone`). -/
theorem handleAckLoop_acks (info : ReceivedPacketInfo) (sn : Nat)
    (hle : sn ≤ info.largest_observed)
    (hnaw : IsAwaitingPacket info sn = false) :
    ∀ (fuel cursor : Nat) (s : SentPacketManager),
    SortedKeys s → Inv2T s.unacked_packets →
    countKeysGE s.unacked_packets cursor < fuel →
    cursor ≤ sn →
    (lookupU s.unacked_packets sn).isSome = true →
    SnGone sn (handleAckLoop fuel info cursor s) := by
  intro fuel
  induction fuel with
  | zero =>
    intro cursor s _ _ hcnt _ _
    exact absurd hcnt (by omega)
  | succ n ih =>
    intro cursor s hsort hinv hcnt hcur hsome
    have hsnmem : sn ∈ s.unacked_packets.map Prod.fst := by
      cases hl : lookupU s.unacked_packets sn with
      | none => rw [hl] at hsome; exact absurd hsome (by simp)
      | some ti => exact List.mem_map_of_mem Prod.fst (mem_of_lookupU _ _ _ hl)
    unfold handleAckLoop
    cases hk : firstKeyGE s.unacked_packets cursor with
    | none =>
      have := firstKeyGE_none_lookup _ _ _ hk hcur
      rw [this] at hsome
      exact absurd hsome (by simp)
    | some k =>
      simp only [hk]
      have hkmin := firstKeyGE_min_sorted cursor k s.unacked_packets hsort hk
        sn hsnmem hcur
      have hkmem := firstKeyGE_mem s.unacked_packets cursor k hk
      split_ifs with h1 h2
      · omega
      · -- the peer still awaits `k`; skip past it
        have hksn : k ≠ sn := fun he => by
          rw [he, hnaw] at h2
          exact Bool.noConfusion h2
        refine ih (k + 1) s hsort hinv ?_ (by omega) hsome
        have := countKeysGE_skip_lt s.unacked_packets k cursor
          hkmem.1 hkmem.2
        omega
      · -- `k` is acked and handled
        by_cases hksn : k = sn
        · subst hksn
          cases hl : lookupU s.unacked_packets k with
          | none => rw [hl] at hsome; exact absurd hsome (by simp)
          | some ti =>
            refine snGone_handleAckLoop k n info k _ ?_
            exact markPacketHandled_self_gone s k true ti hl
              (hinv k ti hl)
        · cases hl' : lookupU (MarkPacketHandled s k true).unacked_packets sn
            with
          | none =>
            refine snGone_handleAckLoop sn n info k _ ?_
            refine ⟨hl', ?_⟩
            refine markPacketHandled_tableNone_imp_queueNone s k true sn
              (fun hn => ?_) hl'
            rw [hn] at hsome
            exact absurd hsome (by simp)
          | some ti' =>
            refine ih k (MarkPacketHandled s k true)
              (sortedKeys_markPacketHandled s k true hsort)
              (inv2T_markPacketHandled s k true hinv) ?_ (hkmin) ?_
            · have hgone : SnGone k (MarkPacketHandled s k true) := by
                cases hlk : lookupU s.unacked_packets k with
                | none =>
                  refine ⟨?_, ?_⟩ <;> rw [markPacketHandled_none s k true hlk]
                  · exact hlk
                  · rcases hkmem with ⟨hm, _⟩
                    exact absurd hm ((lookupU_eq_none_iff _ _).mp hlk)
                | some tk =>
                  exact markPacketHandled_self_gone s k true tk hlk
                    (hinv k tk hlk)
              have := countKeysGE_handled_lt
                (MarkPacketHandled s k true).unacked_packets
                s.unacked_packets k cursor
                (keys_sublist_markPacketHandled s k true) hgone.1
                hkmem.1 hkmem.2
              omega
            · rw [hl']
              rfl

/-! The remaining ACK-pipeline steps never resurrect a disposed SN. -/

theorem maybeUpdateRTT_table (s : SentPacketManager)
    (info : ReceivedPacketInfo) (t : Nat) :
    (MaybeUpdateRTT s info t).unacked_packets = s.unacked_packets := by
  unfold MaybeUpdateRTT
  cases lookupU s.unacked_packets info.largest_observed with
  | none => rfl
  | some ti =>
    dsimp only
    split_ifs <;> rfl

theorem maybeUpdateRTT_queue (s : SentPacketManager)
    (info : ReceivedPacketInfo) (t : Nat) :
    (MaybeUpdateRTT s info t).pending_retransmissions =
      s.pending_retransmissions := by
  unfold MaybeUpdateRTT
  cases lookupU s.unacked_packets info.largest_observed with
  | none => rfl
  | some ti =>
    dsimp only
    split_ifs <;> rfl

theorem queue_onPacketAbandoned (s : SentPacketManager) (k : Nat) :
    (OnPacketAbandonedState s k).pending_retransmissions =
      s.pending_retransmissions := by
  unfold OnPacketAbandonedState
  split_ifs <;> rfl

theorem foldl_preserves_of_mem {α : Type} (P : SentPacketManager → Prop)
    (f : SentPacketManager → α → SentPacketManager) :
    ∀ (l : List α), (∀ st a, a ∈ l → P st → P (f st a)) →
    ∀ (st : SentPacketManager), P st → P (l.foldl f st) := by
  intro l
  induction l with
  | nil => intro _ st h; exact h
  | cons a rest ih =>
    intro hf st h
    rw [List.foldl_cons]
    exact ih (fun st b hb hst => hf st b (List.mem_cons_of_mem a hb) hst)
      (f st a) (hf st a (List.mem_cons_self a rest) h)

/-- Every SN the loss detector reports is a key of the scanned table. -/
theorem detectLost_mem_keys (packets : List (Nat × TransmissionInfo))
    (t ls lo m : Nat) (h : m ∈ DetectLostPackets packets t ls lo) :
    m ∈ packets.map Prod.fst := by
  unfold DetectLostPackets at h
  rcases List.mem_filterMap.mp h with ⟨p, hp, hf⟩
  have hpm : p ∈ packets :=
    (List.takeWhile_sublist
      (fun p : Nat × TransmissionInfo => decide (p.1 ≤ lo))).mem hp
  dsimp only at hf
  have hpe : p.1 = m := by
    split at hf
    · exact absurd hf (by simp)
    · split at hf
      all_goals split at hf
      all_goals simpa using hf
  rw [← hpe]
  exact List.mem_map_of_mem Prod.fst hpm

/-- A key-preserving rewrite of the whole table keeps a disposed SN out. -/
theorem snGone_tableMap (sn : Nat) (s : SentPacketManager)
    (g : Nat × TransmissionInfo → Nat × TransmissionInfo)
    (hg : ∀ p, (g p).1 = p.1) (h : SnGone sn s) :
    SnGone sn { s with unacked_packets := s.unacked_packets.map g } := by
  constructor
  · exact lookupU_none_of_keys s.unacked_packets _ sn
      (keys_map_keyfix s.unacked_packets g hg) h.1
  · exact h.2

/-- Abandon-then-retransmit-or-remove on another SN keeps a disposed SN
out of both structures. -/
theorem snGone_abandonRetxRemove (sn : Nat) (st : SentPacketManager)
    (m : Nat) (hmsn : m ≠ sn) (h : SnGone sn st) :
    SnGone sn (if HasRetransmittableFramesS (OnPacketAbandonedState st m) m
      then MarkForRetransmission (OnPacketAbandonedState st m) m
        TransmissionType.NACK_RETRANSMISSION
      else removeState (OnPacketAbandonedState st m) m) := by
  constructor
  · split_ifs with h2
    · unfold MarkForRetransmission
      split_ifs
      · exact tableNone_onPacketAbandoned _ _ _ h.1
      · exact tableNone_onPacketAbandoned _ _ _ h.1
    · exact tableNone_removeState _ _ _
        (tableNone_onPacketAbandoned _ _ _ h.1)
  · split_ifs with h2
    · unfold MarkForRetransmission
      split_ifs
      · rw [queue_onPacketAbandoned]
        exact h.2
      · show qlookup (qinsert (OnPacketAbandonedState st m).pending_retransmissions m TransmissionType.NACK_RETRANSMISSION) sn = none
        rw [qlookup_qinsert_other _ m _ sn (Ne.symm hmsn),
          queue_onPacketAbandoned]
        exact h.2
    · show qlookup (OnPacketAbandonedState st m).pending_retransmissions sn = none
      rw [queue_onPacketAbandoned]
      exact h.2

theorem snGone_maybeRetransmitOnAckFrame (sn : Nat) (s : SentPacketManager)
    (info : ReceivedPacketInfo) (t : Nat) (h : SnGone sn s) :
    SnGone sn (MaybeRetransmitOnAckFrame s info t) := by
  have hS := snGone_tableMap sn s
    (fun p => if p.1 ≤ info.largest_observed ∧ p.2.pending then
      (p.1, nackInfo p.2 (info.largest_observed - p.1)) else p)
    (fun p => by dsimp only; split_ifs <;> rfl) h
  simp only [MaybeRetransmitOnAckFrame]
  refine foldl_preserves_of_mem (SnGone sn) _ _
    (fun st m hm hst => ?_) _ hS
  have hmsn : m ≠ sn := by
    intro he
    have hkm := detectLost_mem_keys _ _ _ _ m hm
    rw [he] at hkm
    have hnone : lookupU (s.unacked_packets.map
        (fun p => if p.1 ≤ info.largest_observed ∧ p.2.pending then
          (p.1, nackInfo p.2 (info.largest_observed - p.1)) else p)) sn =
        none := hS.1
    exact (lookupU_eq_none_iff _ _).mp hnone (by exact hkm)
  exact snGone_abandonRetxRemove sn _ m hmsn ⟨hst.1, hst.2⟩

theorem inv2T_of_forall_mem (l : List (Nat × TransmissionInfo))
    (h : ∀ p ∈ l, p.1 ∈ p.2.all_transmissions) : Inv2T l :=
  fun k tk hl => h (k, tk) (mem_of_lookupU l k tk hl)

/-- The whole ack sweep (loop, revived cleanup, truncated compaction)
disposes of every SN it acks. -/
theorem acked_gone_handleAckForSentPackets (s : SentPacketManager)
    (info : ReceivedPacketInfo) (sn : Nat)
    (hsort : SortedKeys s) (hinv : Inv2T s.unacked_packets)
    (hle : sn ≤ info.largest_observed)
    (hnaw : IsAwaitingPacket info sn = false)
    (hsome : (lookupU s.unacked_packets sn).isSome = true) :
    SnGone sn (HandleAckForSentPackets s info) := by
  simp only [HandleAckForSentPackets]
  have h1 : SnGone sn (handleAckLoop (s.unacked_packets.length + 1) info 0 s) :=
    handleAckLoop_acks info sn hle hnaw _ 0 s hsort hinv
      (countKeysGE_init s.unacked_packets) (Nat.zero_le sn) hsome
  have h2 := snGone_revivedFold sn info.revived_packets _ h1
  split_ifs
  · exact snGone_clearLoop sn _ _ _ h2
  · exact h2

/-- C5: for every SN handled as acked by `MarkPacketHandled`, every member
of its transmission group is erased from the pending-retransmission queue,
and each member's record is removed from the table when it is non-pending at
the removal check, or neutered (frames cleared, record kept) when it is
pending there (a member of a crypto-handshake group, and the acked SN
itself, have pending cleared before that check and so are removed);
consequently, after `OnIncomingAck` returns, an acked SN — covered by
`largest_observed` and no longer awaited by the peer — is out of the
pending-retransmission queue (and out of the table). -/
theorem markPacketHandled_ack_spec :
    (∀ (s : SentPacketManager) (sn : Nat) (rbp : Bool)
      (ti : TransmissionInfo),
      lookupU s.unacked_packets sn = some ti →
      ti.all_transmissions.Nodup →
      ∀ m ∈ ti.all_transmissions,
      qlookup (MarkPacketHandled s sn rbp).pending_retransmissions m = none ∧
      (if hasCryptoHandshakeAt s (ti.all_transmissions.getLastD 0) = false ∧
          m ≠ sn ∧ IsPendingS s m = true
       then (lookupU (MarkPacketHandled s sn rbp).unacked_packets m).map
           (fun x => x.retransmittable_frames) = some none
       else lookupU (MarkPacketHandled s sn rbp).unacked_packets m = none)) ∧
    (∀ (s : SentPacketManager) (info : ReceivedPacketInfo) (t sn : Nat),
      SortedKeys s → Inv2T s.unacked_packets →
      sn ≤ info.largest_observed →
      IsAwaitingPacket info sn = false →
      IsUnackedS s sn = true →
      qlookup (OnIncomingAck s info t).pending_retransmissions sn = none ∧
      lookupU (OnIncomingAck s info t).unacked_packets sn = none) := by
  constructor
  · exact fun s sn rbp ti hl hnd => markPacketHandled_group s sn rbp ti hl hnd
  · intro s info t sn hsort hinv hle hnaw hsome
    have hgone : SnGone sn (OnIncomingAck s info t) := by
      simp only [OnIncomingAck]
      have hs1sort : SortedKeys (MaybeUpdateRTT s info t) := by
        unfold SortedKeys
        rw [maybeUpdateRTT_table]
        exact hsort
      have hs1inv : Inv2T (MaybeUpdateRTT s info t).unacked_packets := by
        rw [maybeUpdateRTT_table]
        exact hinv
      have hs1some :
          (lookupU (MaybeUpdateRTT s info t).unacked_packets sn).isSome =
            true := by
        rw [maybeUpdateRTT_table]
        exact hsome
      have h2 := acked_gone_handleAckForSentPackets (MaybeUpdateRTT s info t)
        info sn hs1sort hs1inv hle hnaw hs1some
      have h3 := snGone_maybeRetransmitOnAckFrame sn _ info t h2
      split_ifs
      · exact ⟨h3.1, h3.2⟩
      · exact h3
    exact ⟨hgone.2, hgone.1⟩

/-- A concrete run of both halves of the C5 theorem on the one-packet
manager `sEx1`: acking SN 1 clears it from the queue and the table. -/
theorem markPacketHandled_ack_spec_witness :
    qlookup (MarkPacketHandled sEx1 1 true).pending_retransmissions 1 =
      none ∧
    qlookup (OnIncomingAck sEx1 infoC8 5000).pending_retransmissions 1 =
      none := by
  constructor
  · exact (markPacketHandled_ack_spec.1 sEx1 1 true tiPend rfl (by decide) 1
      (by decide)).1
  · exact (markPacketHandled_ack_spec.2 sEx1 infoC8 5000 1
      (by unfold SortedKeys; decide)
      (inv2T_of_forall_mem _ (by decide)) (by decide) (by decide)
      (by decide)).1
